import Mathlib

/-
Verification of the Lhotse Shar lazy reader (`src/lhotse/shar/readers/lazy.py`,
class `LazySharIterator` and helper `_jsonl_tar_adaptor`) against its
natural-language specification.

The embedding is shallow: the Python class is modelled as a pure constructor
producing a `SharIterator` record (construction errors become `Except` errors),
and generator-based iteration is modelled as a function returning the list of
yielded records together with an optional synchronization fault that aborted
the iteration.  External collaborators (manifest iterators, tar iterators,
line counting, directory listing, and the ambient distributed context) are
collected in an `Env` record of oracle functions.  The shard shuffle
`random.Random(seed).shuffle(self.shards)` is embedded faithfully: `MT` below
is CPython's Mersenne Twister (`_randommodule.c`) with its `init_by_array`
seeding, `getrandbits`, `_randbelow_with_getrandbits` rejection sampling and
`random.shuffle`'s Fisher-Yates loop, so the exact permutation produced by a
given seed is computable inside Lean.
-/

set_option maxRecDepth 100000

namespace LhotseShar

/-! ## CPython Mersenne Twister (the collaborator behind `random.Random(seed).shuffle`)

The 624-word generator state is packed into a single natural number,
32 bits per word; `w32`/`setw` read and write one word.  All loops are
structural recursions on fuel, and `forceNat` forces numeric intermediates so
that kernel reduction stays iterative. -/

namespace MT

def M32 : Nat := 4294967296

/-- Evaluate a numeric intermediate before continuing (keeps reduction iterative). -/
def forceNat {α : Type} : Nat → α → α
  | 0, a => a
  | _+1, a => a

/-- Word `i` of a packed 624-word state. -/
def w32 (n i : Nat) : Nat := (n >>> (32 * i)) % M32

/-- Overwrite word `i` of a packed state with `v` (a value below 2^32). -/
def setw (n i v : Nat) : Nat := n - ((w32 n i) <<< (32 * i)) + (v <<< (32 * i))

/-- Body of `init_genrand`: `mt[i] = (1812433253 * (mt[i-1] ^ (mt[i-1] >> 30)) + i) & 0xffffffff`. -/
def igLoop : Nat → Nat → Nat → Nat → Nat
  | 0, _, acc, _ => acc
  | fuel+1, i, acc, prev =>
    let v := (1812433253 * (Nat.xor prev (prev >>> 30)) + i) % M32
    forceNat v (igLoop fuel (i+1) (acc + (v <<< (32*i))) v)

/-- CPython `init_genrand`. -/
def initGenrand (seed : Nat) : Nat :=
  igLoop 623 1 (seed % M32) (seed % M32)

/-- First loop of CPython `init_by_array`; returns the state together with the
running index `i`, which carries over into the second loop. -/
def iter1 (key : List Nat) : Nat → Nat → Nat → Nat → Nat × Nat
  | 0, mt, i, _ => (mt, i)
  | fuel+1, mt, i, j =>
    let prev := w32 mt (i - 1)
    let v := ((Nat.xor (w32 mt i) ((Nat.xor prev (prev >>> 30)) * 1664525)) + key.getD j 0 + j) % M32
    let mt1 := setw mt i v
    let i1 := i + 1
    let j1 := j + 1
    let mt2 := if i1 ≥ 624 then setw mt1 0 (w32 mt1 623) else mt1
    let i2 := if i1 ≥ 624 then 1 else i1
    let j2 := if j1 ≥ key.length then 0 else j1
    forceNat mt2 (forceNat i2 (forceNat j2 (iter1 key fuel mt2 i2 j2)))

/-- Second loop of CPython `init_by_array` (multiplier 1566083941, subtracting `i` mod 2^32). -/
def iter2 : Nat → Nat → Nat → Nat
  | 0, mt, _ => mt
  | fuel+1, mt, i =>
    let prev := w32 mt (i - 1)
    let v := ((Nat.xor (w32 mt i) ((Nat.xor prev (prev >>> 30)) * 1566083941)) + M32 - i) % M32
    let mt1 := setw mt i v
    let i1 := i + 1
    let mt2 := if i1 ≥ 624 then setw mt1 0 (w32 mt1 623) else mt1
    let i2 := if i1 ≥ 624 then 1 else i1
    forceNat mt2 (forceNat i2 (iter2 fuel mt2 i2))

/-- CPython `init_by_array(key)`: seed the state array, then set `mt[0] = 0x80000000`. -/
def initByArray (key : List Nat) : Nat :=
  let s1 := iter1 key (max 624 key.length) (initGenrand 19650218) 1 0
  let mt := iter2 623 s1.1 s1.2
  setw mt 0 2147483648

/-- One in-place update of the block twist at index `kk` (reads `mt[kk]`,
`mt[(kk+1) % 624]`, `mt[(kk+397) % 624]`, exactly as the C loops do after
accounting for already-updated entries). -/
def twistAt (mt : Nat) (kk : Nat) : Nat :=
  let y := ((w32 mt kk) &&& 2147483648) + ((w32 mt ((kk + 1) % 624)) &&& 2147483647)
  setw mt kk
    (Nat.xor (w32 mt ((kk + 397) % 624))
      (Nat.xor (y >>> 1) (if y % 2 = 1 then 2567483615 else 0)))

def twGo : Nat → Nat → Nat → Nat
  | 0, _, mt => mt
  | fuel+1, kk, mt =>
    let mt1 := twistAt mt kk
    forceNat mt1 (twGo fuel (kk+1) mt1)

/-- The full 624-step block twist. -/
def twist (mt : Nat) : Nat := twGo 624 0 mt

/-- Tempering transform of `genrand_uint32`. -/
def temper (y : Nat) : Nat :=
  let y := Nat.xor y (y >>> 11)
  let y := Nat.xor y ((y <<< 7) &&& 2636928640)
  let y := Nat.xor y ((y <<< 15) &&& 4022730752)
  Nat.xor y (y >>> 18)

/-- Generator state: packed word array plus the next output index (624 forces a twist). -/
structure State where
  mt : Nat
  index : Nat
deriving DecidableEq

/-- CPython `genrand_uint32`. -/
def genrand : State → Nat × State
  | ⟨mt, idx⟩ =>
    let mt1 := if idx ≥ 624 then twist mt else mt
    let idx1 := if idx ≥ 624 then 0 else idx
    (temper (w32 mt1 idx1), ⟨mt1, idx1 + 1⟩)

/-- Split a seed into little-endian 32-bit words (CPython `random_seed` key layout). -/
def seedKeyGo (fuel n : Nat) : List Nat :=
  match fuel with
  | 0 => []
  | fuel + 1 => if n = 0 then [] else (n % M32) :: seedKeyGo fuel (n / M32)

def seedKey (n : Nat) : List Nat :=
  if n = 0 then [0] else seedKeyGo n n

/-- The state of a freshly constructed `random.Random(seed)` for a non-negative
integer seed. -/
def seedState (seed : Nat) : State := ⟨initByArray (seedKey seed), 624⟩

def grbLoop : Nat → State → Nat → Nat → Nat × State
  | 0, s, _, _ => (0, s)
  | w+1, s, k, sh =>
    let (y, s1) := genrand s
    let r := if k < 32 then y >>> (32 - k) else y
    let (rest, s2) := grbLoop w s1 (k - 32) (sh + 32)
    ((r <<< sh) + rest, s2)

/-- CPython `getrandbits(k)`: little-endian accumulation of 32-bit words, last
word truncated to the remaining bit count. -/
def getrandbits (s : State) (k : Nat) : Nat × State :=
  grbLoop ((k + 31) / 32) s k 0

def bitLenGo : Nat → Nat → Nat
  | 0, _ => 0
  | fuel+1, n => if n = 0 then 0 else bitLenGo fuel (n / 2) + 1

/-- `int.bit_length` (structural, so that the kernel can evaluate it). -/
def bitLength (n : Nat) : Nat := bitLenGo n n

def randbelowLoop : Nat → State → Nat → Nat → Nat × State
  | 0, s, _, _ => (0, s)
  | fuel+1, s, n, k =>
    let (r, s1) := getrandbits s k
    if r < n then (r, s1) else randbelowLoop fuel s1 n k

/-- CPython `Random._randbelow_with_getrandbits(n)`: draw `bit_length n` bits and
reject draws `≥ n`.  The rejection loop is given a generous fuel of 64 draws;
each draw is accepted with probability `> 1/2`, and every concrete evaluation
in this file accepts within the first few draws. -/
def randbelow (s : State) (n : Nat) : Nat × State :=
  if n = 0 then (0, s) else randbelowLoop 64 s n (bitLength n)

/-- Swap positions `i` and `j` of a list (no-op when out of range, as both
indices are in range in `random.shuffle`). -/
def listSwap {α : Type} (xs : List α) (i j : Nat) : List α :=
  match xs.get? i, xs.get? j with
  | some a, some b => (xs.set i b).set j a
  | _, _ => xs

/-- The Fisher-Yates loop of `random.shuffle`: for `i = len-1, ..., 1`,
draw `j = randbelow (i+1)` and swap `x[i]` with `x[j]`. -/
def shuffleGo {α : Type} : Nat → List α → State → List α × State
  | 0, xs, s => (xs, s)
  | im1+1, xs, s =>
    let (j, s1) := randbelow s (im1 + 2)
    shuffleGo im1 (listSwap xs (im1 + 1) j) s1

/-- `random.Random(seed).shuffle(xs)`: a locally seeded generator drives the
Fisher-Yates loop; no state outside the arguments is consulted. -/
def pyShuffle {α : Type} (seed : Nat) (xs : List α) : List α :=
  (shuffleGo (xs.length - 1) xs (seedState seed)).1

end MT

/-! ## Path semantics (pathlib `PurePath.name`, `.stem`, `.suffixes`)

Paths are strings; the helpers below reproduce the pathlib 3.x semantics the
reader relies on (`Path(...).stem`, `p.name.split(".")[0]`,
`p.stem.split(".")[0]`, and the suffix list behind `extension_contains`). -/

/-- Split a character list on a separator, Python `str.split` style
(`"".split` gives one empty group, separators at the ends give empty groups). -/
def splitChars (sep : Char) : List Char → List (List Char)
  | [] => [[]]
  | c :: cs =>
    match splitChars sep cs with
    | [] => [[]]
    | grp :: rest => if c = sep then [] :: grp :: rest else (c :: grp) :: rest

/-- The final path component (`PurePath.name`): everything after the last `/`. -/
def pathNameChars (p : List Char) : List Char :=
  (splitChars '/' p).getLastD []

/-- Index of the first `.` in a character list, if any (applied to a reversed
name this computes `str.rfind('.')` from the right end). -/
def idxOfDot : List Char → Option Nat
  | [] => none
  | c :: cs => if c = '.' then some 0 else (idxOfDot cs).map (· + 1)

/-- pathlib `stem` of a name: with `i = name.rfind('.')`, the name is cut at `i`
when `0 < i < len - 1`, else returned whole (hidden files and trailing dots
keep their name).  Here `i = len - 1 - j` with `j` the dot index from the end. -/
def stemChars (name : List Char) : List Char :=
  match idxOfDot name.reverse with
  | none => name
  | some j => if 0 < j ∧ j < name.length - 1 then name.take (name.length - 1 - j) else name

/-- `Path(p).stem` for a path given as a string. -/
def pathStem (p : String) : String := ⟨stemChars (pathNameChars p.toList)⟩

/-- pathlib `suffixes` of a name: empty for names ending in a dot; otherwise
strip leading dots and return the dot-prefixed groups after the first. -/
def suffixesChars (name : List Char) : List (List Char) :=
  if name.getLast? = some '.' then []
  else ((splitChars '.' (name.dropWhile (fun c => c = '.'))).tail).map (fun g => '.' :: g)

/-- Modelled from the spec: `extension_contains` (from `lhotse.serialization`,
not part of the analysed source) decides which kind of stream a shard location
denotes — a location with a `.tar` suffix component is a binary archive and the
primary field's files must carry the line-oriented-manifest extension
(`.jsonl` among the suffixes, so `cuts.000000.jsonl.gz` also qualifies). -/
def extension_contains (ext : String) (p : String) : Bool :=
  (suffixesChars (pathNameChars p.toList)).contains ext.toList

/-- `p.name.split(".")[0]`: the leading component of the file name before the
first extension separator. -/
def nameFirstSeg (p : String) : String :=
  ⟨(splitChars '.' (pathNameChars p.toList)).headD []⟩

/-- `p.stem.split(".")[0]`, as used to discover the field set in directory mode. -/
def stemFirstSeg (p : String) : String :=
  ⟨(splitChars '.' (stemChars (pathNameChars p.toList))).headD []⟩

/-! ## Data model -/

/-- Opaque payload attached to records: the reader never inspects these beyond
passing them through, so strings and numbers suffice for the embedding. -/
inductive Value where
  | str : String → Value
  | num : Nat → Value
deriving DecidableEq

/-- A record ("cut"): its id, its dynamically attached field values
(`setattr(cut, field, manifest)` updates this mapping), and the
`cut.shard_origin` stamp set during iteration. -/
structure Cut where
  id : String
  attrs : List (String × Value)
  shard_origin : Option String
deriving DecidableEq, Inhabited

/-- Update-or-append semantics of Python attribute assignment. -/
def setAttr : List (String × Value) → String → Value → List (String × Value)
  | [], k, v => [(k, v)]
  | (k0, v0) :: rest, k, v =>
    if k0 = k then (k, v) :: rest else (k0, v0) :: setAttr rest k v

def Cut.setattr (c : Cut) (k : String) (v : Value) : Cut :=
  { c with attrs := setAttr c.attrs k v }

/-- An item deserialized by `LazyJsonlIterator`: a JSON object holding the key
`cut_id` (a string) plus its remaining key-value pairs. -/
structure JsonItem where
  cut_id : String
  rest : List (String × Value)
deriving DecidableEq, Inhabited

/-- `field in item` on the underlying JSON object. -/
def JsonItem.hasField (it : JsonItem) (f : String) : Bool :=
  f == "cut_id" || (List.lookup f it.rest).isSome

/-- `item[field]` on the underlying JSON object (only read when present). -/
def JsonItem.getField (it : JsonItem) (f : String) : Value :=
  if f == "cut_id" then .str it.cut_id else (List.lookup f it.rest).getD (.str "")

/-- External collaborators consumed by the reader, as oracle functions: what
each shard location yields when opened, plus the ambient distributed context. -/
structure Env where
  /-- `LazyManifestIterator(path)`: the deserialized records of a cuts shard. -/
  manifest : String → List Cut
  /-- `TarIterator(path)`: ordered `(member_manifest_or_none, member_name)` pairs. -/
  tarItems : String → List (Option Value × String)
  /-- `LazyJsonlIterator(path)`: raw deserialized JSONL items. -/
  jsonlItems : String → List JsonItem
  /-- `count_newlines_fast(path)`: newline count of a manifest file. -/
  countNewlines : String → Nat
  /-- `Path(in_dir).glob("*")`: entry names found in a directory (in OS order). -/
  dirEntries : String → List String
  /-- Ambient distributed context: node (DDP rank) count and index. -/
  nodeWorld : Nat
  nodeRank : Nat
  /-- Ambient distributed context: dataloader worker count and index. -/
  workerWorld : Nat
  workerRank : Nat

/-! ## Small list utilities used by the embedding -/

def lookupD {β : Type} (l : List (String × β)) (k : String) (d : β) : β :=
  (List.lookup k l).getD d

/-- Insert into a sorted list (kernel-computable replacement for Python's
stable ascending `sorted`). -/
def insertLe {α : Type} (le : α → α → Bool) (a : α) : List α → List α
  | [] => [a]
  | b :: bs => if le a b then a :: b :: bs else b :: insertLe le a bs

/-- Stable insertion sort: agrees with Python `sorted` for a total order. -/
def insertionSort {α : Type} (le : α → α → Bool) : List α → List α
  | [] => []
  | a :: as => insertLe le a (insertionSort le as)

/-- Lexicographic code-point comparison of character lists — Python's ascending
string order in a form the kernel can evaluate (equivalent to the string order,
see `strLe_iff_le`). -/
def charListLe : List Char → List Char → Bool
  | [], _ => true
  | _ :: _, [] => false
  | a :: as, b :: bs => if a = b then charListLe as bs else decide (a < b)

/-- `a <= b` on strings, as `sorted` compares shard locations. -/
def strLe (a b : String) : Bool := charListLe a.data b.data

/-- Deduplicate, keeping first occurrences (models iterating over a `set` of
keys; the claims never depend on Python's set iteration order). -/
def uniqueKeysGo (seen : List String) : List String → List String
  | [] => []
  | k :: ks =>
    if seen.contains k then uniqueKeysGo seen ks
    else k :: uniqueKeysGo (k :: seen) ks

def uniqueKeys (ks : List String) : List String := uniqueKeysGo [] ks

/-! ## `_jsonl_tar_adaptor` (lazy.py lines 221-236) -/

/-- Model of `_jsonl_tar_adaptor`: for each manifest item build
`pseudo_path = f"{item['cut_id']}.dummy"`; emit `(None, pseudo_path)` when the
item lacks `field` (a placeholder), else `(item[field], pseudo_path)`. -/
def _jsonl_tar_adaptor : List JsonItem → String → List (Option Value × String)
  | [], _ => []
  | it :: rest, field =>
    let pseudo_path := it.cut_id ++ ".dummy"
    (if it.hasField field then some (it.getField field) else none, pseudo_path)
      :: _jsonl_tar_adaptor rest field

/-! ## Shard resolution and construction (lazy.py lines 103-165) -/

inductive ConfigurationError where
  /-- `exactly_one_not_null(fields, in_dir)` failed. -/
  | wrongArgs
  /-- the primary field `cuts` is missing from the mapping or from the scan. -/
  | missingPrimary
  /-- a field's shard count disagrees with the primary field's. -/
  | shardCountMismatch
deriving DecidableEq

/-- Model of `_init_from_inputs`: require the `cuts` key, set
`self.fields = set(keys) - set(["cuts"])` and `self.streams = fields`. -/
def initFromInputs (fields : List (String × List String)) :
    Except ConfigurationError (List String × List (String × List String)) :=
  if (fields.map Prod.fst).contains "cuts" then
    .ok ((uniqueKeys (fields.map Prod.fst)).filter (fun k => k ≠ "cuts"), fields)
  else
    .error .missingPrimary

/-- `list(self.in_dir.glob("*"))`: the directory entries with the directory
path prefixed, as pathlib returns them. -/
def dirAllPaths (env : Env) (in_dir : String) : List String :=
  (env.dirEntries in_dir).map (fun n => in_dir ++ "/" ++ n)

/-- The field groups discovered in a directory:
`set(p.stem.split(".")[0] for p in all_paths)`. -/
def dirFields (env : Env) (in_dir : String) : List String :=
  uniqueKeys ((dirAllPaths env in_dir).map stemFirstSeg)

/-- The primary field's shard files: leading name component `cuts` and a
`.jsonl` suffix component. -/
def dirCutsPaths (env : Env) (in_dir : String) : List String :=
  (dirAllPaths env in_dir).filter
    (fun p => nameFirstSeg p == "cuts" && extension_contains ".jsonl" p)

/-- A non-primary field's shard files: leading name component equal to the
field name. -/
def dirFieldPaths (env : Env) (in_dir : String) (f : String) : List String :=
  (dirAllPaths env in_dir).filter (fun p => nameFirstSeg p == f)

/-- Model of `_init_from_dir`: glob the directory, group by
`p.stem.split(".")[0]`, require the `cuts` group, then build per-field sorted
location lists (the `cuts` list additionally filtered by the `.jsonl` suffix). -/
def initFromDir (env : Env) (in_dir : String) :
    Except ConfigurationError (List String × List (String × List String)) :=
  if (dirFields env in_dir).contains "cuts" then
    let flds := (dirFields env in_dir).filter (fun k => k ≠ "cuts")
    .ok (flds,
      ("cuts", insertionSort strLe (dirCutsPaths env in_dir)) ::
        flds.map (fun f => (f, insertionSort strLe (dirFieldPaths env in_dir f))))
  else
    .error .missingPrimary

/-- The state `LazySharIterator.__init__` leaves behind.  `lenState` models the
`self._len = None` memo slot of `__len__`. -/
structure SharIterator where
  fields : List String
  streams : List (String × List String)
  num_shards : Nat
  shards : List (List (String × String))
  cut_map_fns : List (Option (Cut → Cut))
  split_for_dataloading : Bool
  lenState : Option Nat

/-- `self.shards`: one descriptor per shard index, mapping each field to its
location at that index (`{field: self.streams[field][shard_idx] ...}`). -/
def mkShards (streams : List (String × List String)) (num_shards : Nat) :
    List (List (String × String)) :=
  (List.range num_shards).map (fun i => streams.map (fun kv => (kv.1, kv.2.getD i "")))

/-- The tail of `__init__` common to both modes: set `num_shards` from the
primary list, check every field's shard count, build the descriptors and the
transform list, and shuffle the descriptors when asked. -/
def finishConstruct (flds : List String) (streams : List (String × List String))
    (split_for_dataloading shuffle_shards : Bool) (seed : Nat)
    (cut_map_fns : Option (List (Cut → Cut))) : Except ConfigurationError SharIterator :=
  let num_shards := (lookupD streams "cuts" []).length
  if flds.all (fun f => (lookupD streams f []).length == num_shards) then
    let fns := match cut_map_fns with
      | some fs => fs.map some
      | none => List.replicate num_shards none
    let shards1 :=
      if shuffle_shards then MT.pyShuffle seed (mkShards streams num_shards)
      else mkShards streams num_shards
    .ok ⟨flds, streams, num_shards, shards1, fns, split_for_dataloading, none⟩
  else
    .error .shardCountMismatch

/-- Model of `LazySharIterator.__init__`. -/
def construct (env : Env) (fields : Option (List (String × List String)))
    (in_dir : Option String) (split_for_dataloading shuffle_shards : Bool)
    (seed : Nat) (cut_map_fns : Option (List (Cut → Cut))) :
    Except ConfigurationError SharIterator :=
  match fields, in_dir with
  | none, none => .error .wrongArgs
  | some _, some _ => .error .wrongArgs
  | some fs, none =>
    match initFromInputs fs with
    | .error e => .error e
    | .ok (flds, streams) =>
      finishConstruct flds streams split_for_dataloading shuffle_shards seed cut_map_fns
  | none, some d =>
    match initFromDir env d with
    | .error e => .error e
    | .ok (flds, streams) =>
      finishConstruct flds streams split_for_dataloading shuffle_shards seed cut_map_fns

/-! ## Distribution splitting (`shards_for_dataloading`) -/

def strideGo {α : Type} (count : Nat) : Nat → List α → List α
  | _, [] => []
  | 0, _ => []
  | fuel+1, x :: xs => x :: strideGo count fuel (xs.drop (count - 1))

/-- `xs[rank::count]`. -/
def strided {α : Type} (count rank : Nat) (xs : List α) : List α :=
  strideGo count xs.length (xs.drop rank)

/-- Modelled from the spec: `split_by_node` (from `lhotse.shar.readers.utils`,
not part of the analysed source) deterministically partitions the descriptor
list across DDP nodes discovered from the ambient context — each node takes a
disjoint, order-preserving, covering strided subset. -/
def split_by_node (env : Env) {α : Type} (xs : List α) : List α :=
  strided env.nodeWorld env.nodeRank xs

/-- Modelled from the spec: `split_by_worker`, the same strided partition one
level down, across a node's dataloader workers. -/
def split_by_worker (env : Env) {α : Type} (xs : List α) : List α :=
  strided env.workerWorld env.workerRank xs

/-! ## Iteration (lazy.py lines 173-210) -/

/-- A synchronization fault: the assertion
`data_path.stem == cut.id` failed for the current record. -/
structure SyncFault where
  cutId : String
  dataPath : String
deriving DecidableEq

/-- Open one field's stream: `TarIterator(path)` when the location carries a
`.tar` suffix, otherwise the jsonl adaptor. -/
def openFieldIter (env : Env) (field path : String) : List (Option Value × String) :=
  if extension_contains ".tar" path then env.tarItems path
  else _jsonl_tar_adaptor (env.jsonlItems path) field

/-- The inner loop over one record's field pairs: skip placeholders, check the
stem/id assertion, attach values in field order.  An assertion failure aborts
with the record unfinished. -/
def attachAll : Cut → List (String × (Option Value × String)) → Except SyncFault Cut
  | cut, [] => .ok cut
  | cut, (_, (none, _)) :: rest => attachAll cut rest
  | cut, (field, (some v, data_path)) :: rest =>
    if pathStem data_path == cut.id then attachAll (cut.setattr field v) rest
    else .error ⟨cut.id, data_path⟩

/-- One shard's merge walk: `zip(cuts, *field_iters.values())` advances every
stream one step per yielded record and stops at the first exhausted stream; a
synchronization fault drops the record in progress and ends the walk.  Each
surviving record is stamped with its shard origin and passed through the
shard's transform before being yielded. -/
def mergeGo (origin : String) (fn : Option (Cut → Cut)) (fieldNames : List String) :
    List Cut → List (List (Option Value × String)) → List Cut × Option SyncFault
  | [], _ => ([], none)
  | cut :: cuts, streams =>
    if streams.any List.isEmpty then ([], none)
    else
      match attachAll cut (fieldNames.zip (streams.map (fun s => s.headD (none, "")))) with
      | .error flt => ([], some flt)
      | .ok cut1 =>
        let cut2 := { cut1 with shard_origin := some origin }
        let cut3 := match fn with
          | some f => f cut2
          | none => cut2
        let r := mergeGo origin fn fieldNames cuts (streams.map List.tail)
        (cut3 :: r.1, r.2)

/-- `field_iters`: the non-primary entries of the shard descriptor, each opened. -/
def fieldIters (env : Env) (shard : List (String × String)) :
    List (String × List (Option Value × String)) :=
  (shard.filter (fun kv => kv.1 ≠ "cuts")).map (fun kv => (kv.1, openFieldIter env kv.1 kv.2))

/-- The merge iterator of one shard descriptor. -/
def mergeShard (env : Env) (shard : List (String × String)) (fn : Option (Cut → Cut)) :
    List Cut × Option SyncFault :=
  let cutsPath := lookupD shard "cuts" ""
  let fi := fieldIters env shard
  mergeGo cutsPath fn (fi.map Prod.fst) (env.manifest cutsPath) (fi.map Prod.snd)

/-- `for shard, cut_map_fn in zip(shards, self.cut_map_fns)`: shards are merged
in list order; a fault propagates out of the generator, aborting the rest. -/
def iterGo (env : Env) :
    List (List (String × String) × Option (Cut → Cut)) → List Cut × Option SyncFault
  | [] => ([], none)
  | (shard, fn) :: rest =>
    match mergeShard env shard fn with
    | (cs, some flt) => (cs, some flt)
    | (cs, none) =>
      let r := iterGo env rest
      (cs ++ r.1, r.2)

/-- The shard list a pass iterates: the split subset when
`split_for_dataloading` is set, else all shards. -/
def selectShards (env : Env) (it : SharIterator) : List (List (String × String)) :=
  if it.split_for_dataloading then split_by_worker env (split_by_node env it.shards) else it.shards

/-- Model of `__iter__`: the yielded records of one full pass, plus the fault
that ended the pass early, if any. -/
def iterate (env : Env) (it : SharIterator) : List Cut × Option SyncFault :=
  iterGo env ((selectShards env it).zip it.cut_map_fns)

/-! ## Length (lazy.py lines 212-215) -/

/-- The sum of newline counts over the primary field's shards. -/
def lenValue (env : Env) (it : SharIterator) : Nat :=
  ((lookupD it.streams "cuts" []).map env.countNewlines).sum

/-- Model of `__len__`: return the memo when set, else count and store. -/
def callLen (env : Env) (it : SharIterator) : Nat × SharIterator :=
  match it.lenState with
  | some n => (n, it)
  | none => (lenValue env it, { it with lenState := some (lenValue env it) })

/-! ## Derived notions used to state the claims -/

/-- The field-to-locations mapping the constructor resolves from its inputs
(the claims compare instance state against this resolution). -/
def resolveStreams (env : Env) (fields : Option (List (String × List String)))
    (in_dir : Option String) : List (String × List String) :=
  match fields, in_dir with
  | some fs, none => ((initFromInputs fs).toOption.map Prod.snd).getD []
  | none, some d => ((initFromDir env d).toOption.map Prod.snd).getD []
  | _, _ => []

/-- The shard descriptor list in resolution order, before any shuffle. -/
def preShuffleShards (env : Env) (fields : Option (List (String × List String)))
    (in_dir : Option String) : List (List (String × String)) :=
  mkShards (resolveStreams env fields in_dir)
    (lookupD (resolveStreams env fields in_dir) "cuts" []).length

/-- The ConfigurationError condition of the spec's error taxonomy, phrased on
the constructor's inputs: neither or both sources supplied; the primary field
`cuts` missing from the explicit mapping or from the directory scan; or some
field's shard-location-list length differing from the primary field's. -/
def configErrorB (env : Env) (fields : Option (List (String × List String)))
    (in_dir : Option String) : Bool :=
  match fields, in_dir with
  | none, none => true
  | some _, some _ => true
  | some fs, none =>
    !((fs.map Prod.fst).contains "cuts") ||
      ((uniqueKeys (fs.map Prod.fst)).any (fun f =>
        f ≠ "cuts" && (lookupD fs f []).length != (lookupD fs "cuts" []).length))
  | none, some d =>
    !((dirFields env d).contains "cuts") ||
      ((dirFields env d).any (fun f => f ≠ "cuts" &&
        (dirFieldPaths env d f).length != (dirCutsPaths env d).length))

/-- Concatenate per-shard results in order, stopping at the first shard whose
merge ended in a fault (the shape `__iter__` produces). -/
def joinUntilFault : List (List Cut × Option SyncFault) → List Cut × Option SyncFault
  | [] => ([], none)
  | (cs, some flt) :: _ => (cs, some flt)
  | (cs, none) :: rest =>
    let r := joinUntilFault rest
    (cs ++ r.1, r.2)

/-- The number of lockstep steps available in one shard's merge: the least
length among the primary stream and every field stream. -/
def mergeLimit (env : Env) (shard : List (String × String)) : Nat :=
  ((fieldIters env shard).map (fun kv => kv.2.length)).foldl min
    (env.manifest (lookupD shard "cuts" "")).length

/-- One field pair is aligned with a record when it is a placeholder or its
item name's stem equals the record's id. -/
def headsAligned (cut : Cut) (pair : Option Value × String) : Bool :=
  match pair.1 with
  | none => true
  | some _ => pathStem pair.2 == cut.id

/-- Every field stream of the shard is aligned with the primary stream on all
positions the lockstep walk reaches. -/
def mergeAligned (env : Env) (shard : List (String × String)) : Bool :=
  (List.range (mergeLimit env shard)).all (fun k =>
    ((fieldIters env shard).map Prod.snd).all (fun s =>
      headsAligned ((env.manifest (lookupD shard "cuts" "")).getD k default)
        (s.getD k (none, ""))))

/-! ## Concrete sample data used by witnesses and counterexamples -/

/-- A record as it comes out of a manifest: no attached fields, no origin. -/
def cutNamed (i : String) : Cut := ⟨i, [], none⟩

/-- A transform stamping marker 0 on the record (shard-0 transform in scenarios). -/
def fnMark0 : Cut → Cut := fun c => c.setattr "marker" (.num 0)

/-- A transform stamping marker 1 on the record (shard-1 transform in scenarios). -/
def fnMark1 : Cut → Cut := fun c => c.setattr "marker" (.num 1)

/-- The directory listing of the C8 scenario. -/
def c8Files : List String :=
  ["cuts.000000.jsonl", "cuts.000001.jsonl", "recording.000000.tar", "recording.000001.tar"]

/-- A small concrete environment: manifests `c0 = [a, b]`, `c1 = [x]`,
`c2 = [p, q, r]`; a misaligned archive `f0.tar` (second member named `c.bin`),
an aligned archive `g0.tar`, a two-member archive `h0.tar` (shorter than `c2`);
a directory `d` listing the C8 scenario files in scrambled order; a degenerate
distributed context. -/
def envA : Env := {
  manifest := fun p =>
    if p = "c0" then [cutNamed "a", cutNamed "b"]
    else if p = "c1" then [cutNamed "x"]
    else if p = "c2" then [cutNamed "p", cutNamed "q", cutNamed "r"]
    else [],
  tarItems := fun p =>
    if p = "f0.tar" then [(some (.num 10), "a.bin"), (some (.num 11), "c.bin")]
    else if p = "g0.tar" then [(some (.num 20), "a.bin"), (some (.num 21), "b.bin")]
    else if p = "h0.tar" then [(some (.num 30), "p.bin"), (some (.num 31), "q.bin")]
    else [],
  jsonlItems := fun p =>
    if p = "j0.jsonl" then [⟨"a", [("feat", .num 3)]⟩, ⟨"b", []⟩] else [],
  countNewlines := fun p => if p = "c0" then 2 else if p = "c1" then 1 else 0,
  dirEntries := fun d =>
    if d = "d" then
      ["cuts.000000.jsonl", "recording.000001.tar", "cuts.000001.jsonl", "recording.000000.tar"]
    else [],
  nodeWorld := 1, nodeRank := 0, workerWorld := 1, workerRank := 0 }

/-! ## Cross-checks of the embedded CPython generator

The expected values below were produced by CPython 3.11 (`random.Random(seed)`),
pinning the embedding word for word against the collaborator it models. -/

/-- The first 32-bit output for seed 1 matches CPython. -/
theorem mt_genrand_seed1_first : (MT.genrand (MT.seedState 1)).1 = 577090037 := by decide

/-- The second 32-bit output for seed 1 matches CPython. -/
theorem mt_genrand_seed1_second :
    (MT.genrand (MT.genrand (MT.seedState 1)).2).1 = 2444712010 := by decide

/-- The first 32-bit output for seed 42 matches CPython. -/
theorem mt_genrand_seed42_first : (MT.genrand (MT.seedState 42)).1 = 2746317213 := by decide

/-- `random.Random(1).shuffle` swaps a pair, as in CPython. -/
theorem mt_shuffle_seed1_pair : MT.pyShuffle 1 [0, 1] = [1, 0] := by decide

/-- `random.Random(42).shuffle([0,1,2,3])` gives `[2, 1, 3, 0]`, as in CPython. -/
theorem mt_shuffle_seed42_quad : MT.pyShuffle 42 [0, 1, 2, 3] = [2, 1, 3, 0] := by decide

/-- `random.Random(7).shuffle([0,1,2])` gives `[2, 0, 1]`, as in CPython. -/
theorem mt_shuffle_seed7_triple : MT.pyShuffle 7 [0, 1, 2] = [2, 0, 1] := by decide

/-! ## Helper lemmas about the merge walk -/

/-- Applying a shard transform commutes with the merge walk: the transformed
walk yields the pointwise-transformed records and the same fault. -/
theorem mergeGo_map_fn (origin : String) (f : Cut → Cut) (fieldNames : List String)
    (cuts : List Cut) (streams : List (List (Option Value × String))) :
    mergeGo origin (some f) fieldNames cuts streams =
      ((mergeGo origin none fieldNames cuts streams).1.map f,
        (mergeGo origin none fieldNames cuts streams).2) := by
  induction cuts generalizing streams with
  | nil => simp [mergeGo]
  | cons c cs ih =>
    by_cases h : streams.any List.isEmpty
    · simp [mergeGo, h]
    · cases hatt : attachAll c (fieldNames.zip (streams.map (fun s => s.headD (none, "")))) with
      | error flt =>
        simp only [List.headD_eq_head?] at hatt
        simp [mergeGo, h, hatt]
      | ok cut1 =>
        simp only [List.headD_eq_head?] at hatt
        simp [mergeGo, h, hatt, ih]

/-- `mergeShard` with a transform is the transform mapped over the plain merge. -/
theorem mergeShard_map_fn (env : Env) (shard : List (String × String)) (f : Cut → Cut) :
    mergeShard env shard (some f) =
      ((mergeShard env shard none).1.map f, (mergeShard env shard none).2) := by
  simp [mergeShard, mergeGo_map_fn]

/-! ## C1 -/

/-- C1 (amended): records are passed through the transform paired with their
shard POSITIONALLY in the shard list the pass iterates (the post-shuffle,
post-split list), not through the transform at the shard's original index:
one full pass equals the per-position plain merges, each mapped through the
transform zipped at that position, concatenated up to the first fault. -/
theorem c1_transforms_by_position (env : Env) (it : SharIterator) :
    iterate env it = joinUntilFault
      (((selectShards env it).zip it.cut_map_fns).map (fun p =>
        ((match p.2 with
          | some f => (mergeShard env p.1 none).1.map f
          | none => (mergeShard env p.1 none).1),
         (mergeShard env p.1 none).2))) := by
  unfold iterate
  generalize (selectShards env it).zip it.cut_map_fns = l
  induction l with
  | nil => simp [iterGo, joinUntilFault]
  | cons hd tl ih =>
    obtain ⟨shard, fn⟩ := hd
    rcases hm : mergeShard env shard none with ⟨cs0, flt0⟩
    cases fn <;> cases flt0 <;>
      simp_all [iterGo, joinUntilFault, mergeShard_map_fn, hm]

/-- C1 counterexample: two shards with transforms `[fnMark0, fnMark1]` and
shuffling enabled with seed 1.  `random.Random(1).shuffle` swaps the two shard
descriptors, and `zip(shards, self.cut_map_fns)` then pairs the shuffled list
positionally with the unshuffled transform list: record `x`, whose shard of
origin is `c1` (original index 1), is passed through `fnMark0` (it carries
marker 0, not marker 1), contradicting the claim that each record goes through
the transform at its shard's original pre-shuffle index. -/
theorem c1_counterexample :
    (construct envA (some [("cuts", ["c0", "c1"])]) none false true 1
        (some [fnMark0, fnMark1])).toOption.map
      (fun it => (iterate envA it).1.map
        (fun c => (c.id, c.shard_origin, lookupD c.attrs "marker" (.num 99)))) =
      some [("x", some "c1", .num 0), ("a", some "c0", .num 1), ("b", some "c0", .num 1)] := by
  decide

/-! ## C7 -/

/-- Splitting at a separator that occurs nowhere in the list yields the list whole. -/
theorem splitChars_no_sep (sep : Char) (l : List Char) (h : ∀ c ∈ l, c ≠ sep) :
    splitChars sep l = [l] := by
  induction l with
  | nil => rfl
  | cons c cs ih =>
    simp only [splitChars]
    rw [ih (fun x hx => h x (List.mem_cons_of_mem _ hx))]
    simp [h c (List.mem_cons_self _ _)]

/-- The stem of `f"{id}.dummy"` recovers `id` whenever `id` is nonempty and
contains no path separator. -/
theorem pathStem_append_dummy (i : String) (hne : i ≠ "") (hslash : ('/' : Char) ∉ i.toList) :
    pathStem (i ++ ".dummy") = i := by
  obtain ⟨l⟩ := i
  have hl : l ≠ [] := by
    intro h
    subst h
    exact hne rfl
  have happ : (String.mk l ++ String.mk ['.', 'd', 'u', 'm', 'm', 'y']) =
      String.mk (l ++ ['.', 'd', 'u', 'm', 'm', 'y']) := rfl
  have hname : pathNameChars (l ++ ['.', 'd', 'u', 'm', 'm', 'y']) =
      l ++ ['.', 'd', 'u', 'm', 'm', 'y'] := by
    have hmem : ∀ c ∈ l ++ ['.', 'd', 'u', 'm', 'm', 'y'], c ≠ '/' := by
      intro c hc
      rcases List.mem_append.mp hc with h1 | h2
      · intro he
        exact hslash (he ▸ h1)
      · fin_cases h2 <;> decide
    simp [pathNameChars, splitChars_no_sep '/' _ hmem]
  have hidx : idxOfDot (l ++ ['.', 'd', 'u', 'm', 'm', 'y']).reverse = some 5 := by
    simp [List.reverse_append, idxOfDot]
  show String.mk (stemChars (pathNameChars (l ++ ['.', 'd', 'u', 'm', 'm', 'y']))) = String.mk l
  have hlen : (l ++ ['.', 'd', 'u', 'm', 'm', 'y']).length = l.length + 6 := by simp
  have hpos : 0 < l.length := List.length_pos.mpr hl
  rw [hname, stemChars, hidx]
  dsimp only
  rw [hlen, if_pos (by omega)]
  have ht : l.length + 6 - 1 - 5 = l.length := by omega
  rw [ht, List.take_left]

/-- C7 (amended): the adaptor emits exactly one pair per source record, in
order — `(none, pseudo_name)` when the record lacks field `F`, else
`(value, pseudo_name)` — and `pseudo_name`'s stem equals the record's id
PROVIDED the id is nonempty and contains no path separator (for ids containing
`/`, or an empty id, `Path.stem` cuts at the separator and the stems differ). -/
theorem c7_adaptor_pairs (items : List JsonItem) (field : String) :
    _jsonl_tar_adaptor items field = items.map (fun it =>
      ((if it.hasField field then some (it.getField field) else none), it.cut_id ++ ".dummy")) ∧
    ∀ it ∈ items, it.cut_id ≠ "" → ('/' : Char) ∉ it.cut_id.toList →
      pathStem (it.cut_id ++ ".dummy") = it.cut_id := by
  constructor
  · induction items with
    | nil => rfl
    | cons it rest ih => simp [_jsonl_tar_adaptor, ih]
  · intro it _ h1 h2
    exact pathStem_append_dummy it.cut_id h1 h2

/-- C7 witness: a concrete manifest stream with one record carrying `feat` and
one placeholder record; the adaptor emits the two pairs in order and the stems
recover the ids. -/
theorem c7_witness :
    (_jsonl_tar_adaptor [⟨"a", [("feat", .num 3)]⟩, ⟨"b", []⟩] "feat" =
        [(some (.num 3), "a.dummy"), (none, "b.dummy")] ∧
      pathStem "a.dummy" = "a") ∧ (⟨"a", [("feat", .num 3)]⟩ : JsonItem) ∈
        ([⟨"a", [("feat", .num 3)]⟩, ⟨"b", []⟩] : List JsonItem) :=
  ⟨⟨by
      have h := (c7_adaptor_pairs [⟨"a", [("feat", .num 3)]⟩, ⟨"b", []⟩] "feat").1
      rw [h]
      decide,
    (c7_adaptor_pairs [⟨"a", [("feat", .num 3)]⟩, ⟨"b", []⟩] "feat").2
      ⟨"a", [("feat", .num 3)]⟩ (by decide) (by decide) (by decide)⟩,
    by decide⟩

/-- C7 counterexample: a record id containing a path separator.  The adaptor
emits `(some value, "a/b.dummy")`, and `Path("a/b.dummy").stem` is `"b"`, not
the record's id `"a/b"` — the claim's unconditional stem equation fails. -/
theorem c7_counterexample :
    _jsonl_tar_adaptor [⟨"a/b", [("feat", .num 3)]⟩] "feat" =
      [(some (.num 3), "a/b.dummy")] ∧ pathStem "a/b.dummy" ≠ "a/b" := by
  decide

/-! ## C9 -/

/-- C9: iteration is a pure function of the construction-time state and the
environment; in particular it ignores the one field a pass of the public API
can mutate (the memoized length), so calling `__iter__` twice — with any
number of `__len__` calls in between — yields identical sequences in identical
order, each pass restarting from the first shard. -/
theorem c9_reiterate_idempotent (env : Env) (it : SharIterator) (x : Option Nat) :
    iterate env { it with lenState := x } = iterate env it ∧
    iterate env (callLen env it).2 = iterate env it := by
  refine ⟨rfl, ?_⟩
  cases h : it.lenState <;> simp only [callLen, h] <;> rfl

/-! ## The Fisher-Yates shuffle permutes its input -/

/-- Pulling the element at position `k` to the front while planting `x` in its
place is a permutation of planting `x` at the front. -/
theorem cons_set_perm {α : Type} (x b : α) :
    ∀ (k : Nat) (xs : List α), xs.get? k = some b → (b :: xs.set k x).Perm (x :: xs)
  | 0, [], h => by simp at h
  | 0, y :: t, h => by
    injection h with h
    subst h
    exact List.Perm.swap x y t
  | k+1, [], h => by simp at h
  | k+1, y :: t, h => by
    have h' : t.get? k = some b := h
    have ih := cons_set_perm x b k t h'
    show (b :: y :: t.set k x).Perm (x :: y :: t)
    exact ((List.Perm.swap y b (t.set k x)).trans (ih.cons y)).trans (List.Perm.swap x y t)

/-- Writing each of two in-range elements over the other permutes the list. -/
theorem set_set_perm {α : Type} :
    ∀ (xs : List α) (i j : Nat) (a b : α), xs.get? i = some a → xs.get? j = some b →
      ((xs.set i b).set j a).Perm xs
  | [], _, _, _, _, hi, _ => by simp at hi
  | x :: t, 0, 0, a, b, hi, hj => by
    injection hi with hi
    injection hj with hj
    subst hi
    subst hj
    exact List.Perm.refl _
  | x :: t, 0, j+1, a, b, hi, hj => by
    injection hi with hi
    subst hi
    exact cons_set_perm x b j t hj
  | x :: t, i+1, 0, a, b, hi, hj => by
    injection hj with hj
    subst hj
    exact cons_set_perm x a i t hi
  | x :: t, i+1, j+1, a, b, hi, hj =>
    (set_set_perm t i j a b hi hj).cons x

/-- `listSwap` permutes the list. -/
theorem listSwap_perm {α : Type} (xs : List α) (i j : Nat) : (MT.listSwap xs i j).Perm xs := by
  unfold MT.listSwap
  cases hi : xs.get? i with
  | none => exact List.Perm.refl xs
  | some a =>
    cases hj : xs.get? j with
    | none => exact List.Perm.refl xs
    | some b => exact set_set_perm xs i j a b hi hj

/-- Every stage of the Fisher-Yates loop permutes the list. -/
theorem shuffleGo_perm {α : Type} : ∀ (n : Nat) (xs : List α) (s : MT.State),
    ((MT.shuffleGo n xs s).1).Perm xs
  | 0, xs, _ => List.Perm.refl xs
  | n+1, xs, s => by
    rcases hr : MT.randbelow s (n+2) with ⟨j, s1⟩
    simp only [MT.shuffleGo, hr]
    exact (shuffleGo_perm n _ _).trans (listSwap_perm xs (n+1) j)

/-- `random.Random(seed).shuffle(xs)` produces a permutation of `xs`. -/
theorem pyShuffle_perm {α : Type} (seed : Nat) (xs : List α) :
    (MT.pyShuffle seed xs).Perm xs :=
  shuffleGo_perm _ xs _

/-! ## C2 -/

/-- C2: with a primary manifest yielding `[a, b]` and the (single) non-primary
field stream carrying data under a second item name whose stem differs from
`b`'s id, the merge yields exactly the fully-populated first record, raises
the synchronization fault exactly upon reaching the second record, and yields
no record at or after the fault — in particular no partially-populated record
for the faulting position. -/
theorem c2_sync_fault_abort (env : Env) (cutsPath fieldName fieldPath : String)
    (a b : Cut) (mv0 : Option Value) (n0 : String) (v1 : Value) (n1 : String)
    (rest : List (Option Value × String))
    (hfield : fieldName ≠ "cuts")
    (hman : env.manifest cutsPath = [a, b])
    (hstream : openFieldIter env fieldName fieldPath = (mv0, n0) :: (some v1, n1) :: rest)
    (h0 : pathStem n0 = a.id ∨ mv0 = none)
    (h1 : pathStem n1 ≠ b.id) :
    mergeShard env [("cuts", cutsPath), (fieldName, fieldPath)] none =
      ([{ (match mv0 with | some v => a.setattr fieldName v | none => a) with
            shard_origin := some cutsPath }],
        some ⟨b.id, n1⟩) := by
  have hlook : lookupD [("cuts", cutsPath), (fieldName, fieldPath)] "cuts" "" = cutsPath := by
    simp [lookupD, List.lookup]
  have hfi : fieldIters env [("cuts", cutsPath), (fieldName, fieldPath)] =
      [(fieldName, openFieldIter env fieldName fieldPath)] := by
    simp [fieldIters, hfield]
  rw [mergeShard]
  rw [hlook, hfi, hman, hstream]
  rcases mv0 with _ | v
  · simp [mergeGo, attachAll, h1]
  · have hstem : pathStem n0 = a.id := by
      rcases h0 with h | h
      · exact h
      · cases h
    simp [mergeGo, attachAll, hstem, h1]

/-- C2 witness: manifest `c0 = [a, b]` against archive `f0.tar` whose second
member is `c.bin`; the merge yields the populated record `a` and then the
fault for `b`. -/
theorem c2_witness :
    (("feat" : String) ≠ "cuts" ∧
      envA.manifest "c0" = [cutNamed "a", cutNamed "b"] ∧
      openFieldIter envA "feat" "f0.tar" =
        (some (.num 10), "a.bin") :: (some (.num 11), "c.bin") :: [] ∧
      (pathStem "a.bin" = (cutNamed "a").id ∨ (some (Value.num 10) : Option Value) = none) ∧
      pathStem "c.bin" ≠ (cutNamed "b").id) ∧
    mergeShard envA [("cuts", "c0"), ("feat", "f0.tar")] none =
      ([⟨"a", [("feat", .num 10)], some "c0"⟩], some ⟨"b", "c.bin"⟩) := by
  refine ⟨⟨by decide, by decide, by decide, Or.inl (by decide), by decide⟩, ?_⟩
  have h := c2_sync_fault_abort envA "c0" "feat" "f0.tar"
    (cutNamed "a") (cutNamed "b") (some (.num 10)) "a.bin" (.num 11) "c.bin" []
    (by decide) (by decide) (by decide) (Or.inl (by decide)) (by decide)
  simpa [cutNamed, Cut.setattr, setAttr] using h

/-! ## Helper lemmas for cuts-only iteration -/

/-- With no field streams, the merge yields every manifest record in order,
stamped with its origin, and cannot fault. -/
theorem mergeGo_no_fields (origin : String) (cuts : List Cut) :
    mergeGo origin none [] cuts [] =
      (cuts.map (fun c => { c with shard_origin := some origin }), none) := by
  induction cuts with
  | nil => rfl
  | cons c cs ih => simp [mergeGo, attachAll, ih]

/-- A shard descriptor holding only the primary field merges to the stamped
manifest records, faultlessly. -/
theorem mergeShard_cuts_only (env : Env) (l : String) :
    mergeShard env [("cuts", l)] none =
      ((env.manifest l).map (fun c => { c with shard_origin := some l }), none) := by
  have hfi : fieldIters env [("cuts", l)] = [] := by
    simp [fieldIters]
  rw [mergeShard, hfi]
  simp [lookupD, List.lookup, mergeGo_no_fields]

/-- Iterating a list of primary-only shard descriptors concatenates their
stamped manifests in order, faultlessly. -/
theorem iterGo_cuts_only (env : Env) (shards : List (List (String × String)))
    (h : ∀ s ∈ shards, ∃ l, s = [("cuts", l)]) :
    iterGo env (shards.map (fun s => (s, none))) =
      ((shards.map (fun s =>
        (env.manifest (lookupD s "cuts" "")).map
          (fun c => { c with shard_origin := some (lookupD s "cuts" "") }))).flatten, none) := by
  induction shards with
  | nil => rfl
  | cons s ss ih =>
    obtain ⟨l, rfl⟩ := h s (List.mem_cons_self _ _)
    have hm := mergeShard_cuts_only env l
    simp [iterGo, hm, lookupD, List.lookup, ih (fun t ht => h t (List.mem_cons_of_mem _ ht))]

/-- Zipping a list with a same-length constant list pairs every element with
the constant. -/
theorem zip_replicate_none {α β : Type} :
    ∀ (l : List α), l.zip (List.replicate l.length (none : Option β)) =
      l.map (fun x => (x, none))
  | [] => rfl
  | x :: xs => by simp [List.replicate, zip_replicate_none xs]

/-- Indexing a list over the range of its length is the list itself (mapped). -/
theorem range_map_getD {α β : Type} (l : List α) (d : α) (f : α → β) :
    (List.range l.length).map (fun i => f (l.getD i d)) = l.map f := by
  induction l with
  | nil => rfl
  | cons x xs ih =>
    rw [List.length_cons, List.range_succ_eq_map]
    simp only [List.map_cons, List.map_map]
    have h2 : List.map ((fun i => f ((x :: xs).getD i d)) ∘ Nat.succ) (List.range xs.length)
        = List.map (fun i => f (xs.getD i d)) (List.range xs.length) :=
      List.map_congr_left (fun i _ => rfl)
    rw [h2, ih]
    rfl

/-! ## C10 -/

/-- C10: an instance built from an explicit mapping whose only key is the
primary field (no auxiliary fields), with splitting disabled, yields every
record of every shard in manifest order as it walks its shard list, with no
field value attached to any record, no possible synchronization fault, and the
shard-origin stamp on every record; its shard list is exactly the per-location
descriptors (permuted when shuffling was requested). -/
theorem c10_cuts_only_iteration (env : Env) (locs : List String) (sh : Bool) (seed : Nat)
    (it : SharIterator)
    (h : construct env (some [("cuts", locs)]) none false sh seed none = .ok it) :
    (iterate env it).2 = none ∧
    (iterate env it).1 = (it.shards.map (fun s =>
        (env.manifest (lookupD s "cuts" "")).map
          (fun c => { c with shard_origin := some (lookupD s "cuts" "") }))).flatten ∧
    it.shards.Perm (locs.map (fun l => [("cuts", l)])) := by
  have hbase : mkShards [("cuts", locs)] locs.length = locs.map (fun l => [("cuts", l)]) := by
    have hr := range_map_getD locs "" (fun x => ([("cuts", x)] : List (String × String)))
    simpa [mkShards] using hr
  have hstep : construct env (some [("cuts", locs)]) none false sh seed none =
      .ok ⟨[], [("cuts", locs)], locs.length,
        (if sh then MT.pyShuffle seed (locs.map (fun l => [("cuts", l)]))
          else locs.map (fun l => [("cuts", l)])),
        List.replicate locs.length none, false, none⟩ := by
    have h1 : initFromInputs [("cuts", locs)] = .ok ([], [("cuts", locs)]) := rfl
    have h2 : lookupD [("cuts", locs)] "cuts" [] = locs := rfl
    simp only [construct, h1, finishConstruct, h2, List.all_nil, if_true, hbase]
  rw [hstep] at h
  injection h with h
  have hit := h.symm
  have hperm : it.shards.Perm (locs.map (fun l => [("cuts", l)])) := by
    rw [hit]
    cases sh with
    | true => exact pyShuffle_perm seed _
    | false => exact List.Perm.refl _
  have hlen : it.shards.length = locs.length := by
    have := hperm.length_eq
    simpa using this
  have hcuts : ∀ s ∈ it.shards, ∃ l, s = [("cuts", l)] := by
    intro s hs
    have : s ∈ locs.map (fun l => [("cuts", l)]) := hperm.mem_iff.mp hs
    obtain ⟨l, _, rfl⟩ := List.mem_map.mp this
    exact ⟨l, rfl⟩
  have hsel : selectShards env it = it.shards := by
    rw [hit]
    rfl
  have hfns : it.cut_map_fns = List.replicate locs.length (none : Option (Cut → Cut)) := by
    rw [hit]
  have hzip : (selectShards env it).zip it.cut_map_fns =
      it.shards.map (fun s => (s, (none : Option (Cut → Cut)))) := by
    rw [hsel, hfns, ← hlen, zip_replicate_none]
  have hrun := iterGo_cuts_only env it.shards hcuts
  refine ⟨?_, ?_, hperm⟩
  · rw [iterate, hzip, hrun]
  · rw [iterate, hzip, hrun]

/-- C10 witness: the cuts-only mapping over shards `c0`, `c1` of `envA`
(shuffle off) constructs successfully and yields `a`, `b`, `x` in order, each
stamped with its shard origin, with no field values and no fault. -/
theorem c10_witness :
    construct envA (some [("cuts", ["c0", "c1"])]) none false false 7 none =
      .ok ⟨[], [("cuts", ["c0", "c1"])], 2, [[("cuts", "c0")], [("cuts", "c1")]],
        [none, none], false, none⟩ ∧
    (iterate envA ⟨[], [("cuts", ["c0", "c1"])], 2, [[("cuts", "c0")], [("cuts", "c1")]],
        [none, none], false, none⟩).2 = none ∧
    (iterate envA ⟨[], [("cuts", ["c0", "c1"])], 2, [[("cuts", "c0")], [("cuts", "c1")]],
        [none, none], false, none⟩).1.map (fun c => (c.id, c.attrs, c.shard_origin)) =
      [("a", [], some "c0"), ("b", [], some "c0"), ("x", [], some "c1")] := by
  have hc := c10_cuts_only_iteration envA ["c0", "c1"] false 7
    ⟨[], [("cuts", ["c0", "c1"])], 2, [[("cuts", "c0")], [("cuts", "c1")]],
      [none, none], false, none⟩ rfl
  refine ⟨rfl, hc.1, ?_⟩
  rw [hc.2.1]
  decide

/-! ## Minimum-of-lengths bookkeeping for the lockstep walk -/

theorem foldl_min_le_init : ∀ (ls : List Nat) (a : Nat), ls.foldl min a ≤ a
  | [], a => le_refl a
  | n :: ns, a => le_trans (foldl_min_le_init ns (min a n)) (min_le_left a n)

theorem foldl_min_le_mem : ∀ (ls : List Nat) (a n : Nat), n ∈ ls → ls.foldl min a ≤ n
  | [], _, _, h => absurd h (List.not_mem_nil _)
  | m :: ms, a, n, h => by
    rcases List.mem_cons.mp h with rfl | hm
    · exact le_trans (foldl_min_le_init ms (min a n)) (min_le_right a n)
    · exact foldl_min_le_mem ms (min a m) n hm

theorem foldl_min_pos : ∀ (ls : List Nat) (a : Nat), 0 < a → (∀ n ∈ ls, 0 < n) →
    0 < ls.foldl min a
  | [], _, ha, _ => ha
  | m :: ms, a, ha, h =>
    foldl_min_pos ms (min a m) (lt_min ha (h m (List.mem_cons_self _ _)))
      (fun n hn => h n (List.mem_cons_of_mem _ hn))

theorem foldl_min_pred : ∀ (ls : List Nat) (a : Nat),
    (ls.map (fun n => n - 1)).foldl min (a - 1) = ls.foldl min a - 1
  | [], _ => rfl
  | m :: ms, a => by
    simp only [List.map_cons, List.foldl_cons]
    rw [← foldl_min_pred ms (min a m)]
    congr 1
    omega

/-- Attribute attachment never changes the record's id. -/
theorem headsAligned_setattr (c : Cut) (k : String) (v : Value) (p : Option Value × String) :
    headsAligned (c.setattr k v) p = headsAligned c p := by
  obtain ⟨mv, n⟩ := p
  cases mv <;> rfl

/-- When every pair is aligned with the record, the attachment loop succeeds. -/
theorem attachAll_ok_of_aligned :
    ∀ (cut : Cut) (pairs : List (String × (Option Value × String))),
      (∀ p ∈ pairs, headsAligned cut p.2 = true) →
      ∃ c', attachAll cut pairs = .ok c'
  | cut, [], _ => ⟨cut, rfl⟩
  | cut, (f, (none, n)) :: ps, h => by
    obtain ⟨c', hc⟩ :=
      attachAll_ok_of_aligned cut ps (fun p hp => h p (List.mem_cons_of_mem _ hp))
    exact ⟨c', by simpa [attachAll] using hc⟩
  | cut, (f, (some v, n)) :: ps, h => by
    have h0 := h (f, (some v, n)) (List.mem_cons_self _ _)
    simp only [headsAligned] at h0
    obtain ⟨c', hc⟩ := attachAll_ok_of_aligned (cut.setattr f v) ps
      (fun p hp => by rw [headsAligned_setattr]; exact h p (List.mem_cons_of_mem _ hp))
    exact ⟨c', by simp [attachAll, h0, hc]⟩

/-- The lockstep walk under an alignment assumption: no fault is raised, and
exactly `min(primary length, field stream lengths)` records are yielded — the
walk advances one step per record and ends quietly at the first exhausted
stream. -/
theorem mergeGo_aligned_run (origin : String) (fn : Option (Cut → Cut))
    (fieldNames : List String) :
    ∀ (cuts : List Cut) (streams : List (List (Option Value × String))),
      (∀ k, k < (streams.map List.length).foldl min cuts.length →
        ∀ s ∈ streams, headsAligned (cuts.getD k default) (s.getD k (none, "")) = true) →
      (mergeGo origin fn fieldNames cuts streams).2 = none ∧
      (mergeGo origin fn fieldNames cuts streams).1.length =
        (streams.map List.length).foldl min cuts.length
  | [], streams, _ => by
    have h1 := foldl_min_le_init (streams.map List.length) ([] : List Cut).length
    constructor
    · rfl
    · simp only [mergeGo, List.length_nil]
      simp only [List.length_nil] at h1
      omega
  | c :: cs, streams, halign => by
    by_cases hemp : streams.any List.isEmpty = true
    · obtain ⟨s, hs, hse⟩ := List.any_eq_true.mp hemp
      have hs0 : s.length = 0 := by
        cases s
        · rfl
        · simp at hse
      have hmem : (0 : Nat) ∈ streams.map List.length := hs0 ▸ List.mem_map_of_mem _ hs
      have hle := foldl_min_le_mem (streams.map List.length) (c :: cs).length 0 hmem
      rw [mergeGo, if_pos hemp]
      refine ⟨rfl, ?_⟩
      have h0 : (streams.map List.length).foldl min (c :: cs).length = 0 :=
        Nat.le_antisymm hle (Nat.zero_le _)
      simp only [List.length_cons] at h0
      simp [h0]
    · have hnonempty : ∀ s ∈ streams, s ≠ [] := by
        intro s hs hcon
        subst hcon
        exact hemp (List.any_eq_true.mpr ⟨[], hs, rfl⟩)
      have hlenpos : ∀ n ∈ streams.map List.length, 0 < n := by
        intro n hn
        obtain ⟨s, hs, rfl⟩ := List.mem_map.mp hn
        exact List.length_pos.mpr (hnonempty s hs)
      have hlim : 0 < (streams.map List.length).foldl min (c :: cs).length :=
        foldl_min_pos _ _ (Nat.succ_pos _) hlenpos
      have hpairs : ∀ p ∈ fieldNames.zip (streams.map (fun s => s.headD (none, ""))),
          headsAligned c p.2 = true := by
        intro p hp
        have hsnd := (List.of_mem_zip hp).2
        obtain ⟨s, hs, hval⟩ := List.mem_map.mp hsnd
        have hhd : s.headD (none, "") = s.getD 0 (none, "") := by cases s <;> rfl
        have := halign 0 hlim s hs
        rw [← hval, hhd]
        exact this
      obtain ⟨c', hc⟩ := attachAll_ok_of_aligned c _ hpairs
      have htails : ((streams.map List.tail).map List.length).foldl min cs.length =
          (streams.map List.length).foldl min (c :: cs).length - 1 := by
        have h1 : (streams.map List.tail).map List.length =
            (streams.map List.length).map (fun n => n - 1) := by
          rw [List.map_map, List.map_map]
          exact List.map_congr_left (fun s _ => List.length_tail s)
        rw [h1]
        have h2 : cs.length = (c :: cs).length - 1 := rfl
        rw [h2, foldl_min_pred]
      have halign' : ∀ k, k < ((streams.map List.tail).map List.length).foldl min cs.length →
          ∀ s ∈ streams.map List.tail,
            headsAligned (cs.getD k default) (s.getD k (none, "")) = true := by
        intro k hk s hs
        obtain ⟨s0, hs0, rfl⟩ := List.mem_map.mp hs
        have hk' : k + 1 < (streams.map List.length).foldl min (c :: cs).length := by
          rw [htails] at hk
          omega
        have := halign (k + 1) hk' s0 hs0
        obtain ⟨x, t, rfl⟩ : ∃ x t, s0 = x :: t := by
          cases s0
          · exact absurd rfl (hnonempty [] hs0)
          · exact ⟨_, _, rfl⟩
        simpa using this
      have ih := mergeGo_aligned_run origin fn fieldNames cs (streams.map List.tail) halign'
      rw [mergeGo, if_neg hemp, hc]
      dsimp only
      refine ⟨ih.1, ?_⟩
      have e1 := ih.2
      have e2 := htails
      have e3 := hlim
      simp only [List.length_cons] at e1 e2 e3 ⊢
      omega

/-! ## C6 -/

/-- C6: within one shard's merge, the primary stream and every field stream
advance in lockstep one step per yielded record and the walk stops at the
first exhausted stream: whenever the streams are aligned over the reachable
positions, the merge ends with no fault (quietly, even when a non-primary
stream is shorter than the primary one) after exactly the minimum stream
length of records. -/
theorem c6_lockstep_min_exhaustion (env : Env) (shard : List (String × String))
    (fn : Option (Cut → Cut)) (halign : mergeAligned env shard = true) :
    (mergeShard env shard fn).2 = none ∧
    (mergeShard env shard fn).1.length = mergeLimit env shard := by
  have hshape : ((fieldIters env shard).map Prod.snd).map List.length =
      (fieldIters env shard).map (fun kv => kv.2.length) := by
    rw [List.map_map]
    rfl
  have hlimit : (((fieldIters env shard).map Prod.snd).map List.length).foldl min
      (env.manifest (lookupD shard "cuts" "")).length = mergeLimit env shard := by
    rw [hshape]
    rfl
  have halign' : ∀ k, k < (((fieldIters env shard).map Prod.snd).map List.length).foldl min
      (env.manifest (lookupD shard "cuts" "")).length →
      ∀ s ∈ (fieldIters env shard).map Prod.snd,
        headsAligned ((env.manifest (lookupD shard "cuts" "")).getD k default)
          (s.getD k (none, "")) = true := by
    intro k hk s hs
    rw [hlimit] at hk
    have h1 := List.all_eq_true.mp halign k (List.mem_range.mpr hk)
    exact List.all_eq_true.mp h1 s hs
  have h := mergeGo_aligned_run (lookupD shard "cuts" "") fn
    ((fieldIters env shard).map Prod.fst) (env.manifest (lookupD shard "cuts" ""))
    ((fieldIters env shard).map Prod.snd) halign'
  rw [hlimit] at h
  exact h

/-- C6 witness: shard `c2` has three primary records but its `feat` archive
`h0.tar` holds only two aligned members; the merge ends quietly after exactly
`mergeLimit = 2` records, with no fault. -/
theorem c6_witness :
    mergeAligned envA [("cuts", "c2"), ("feat", "h0.tar")] = true ∧
    (mergeShard envA [("cuts", "c2"), ("feat", "h0.tar")] none).2 = none ∧
    (mergeShard envA [("cuts", "c2"), ("feat", "h0.tar")] none).1.length =
      mergeLimit envA [("cuts", "c2"), ("feat", "h0.tar")] ∧
    mergeLimit envA [("cuts", "c2"), ("feat", "h0.tar")] = 2 := by
  refine ⟨by decide, ?_, ?_, by decide⟩
  · exact (c6_lockstep_min_exhaustion envA _ none (by decide)).1
  · exact (c6_lockstep_min_exhaustion envA _ none (by decide)).2

/-! ## Inversion of a successful construction -/

/-- What the common tail of `__init__` guarantees about the instance it builds. -/
theorem finishConstruct_ok_state (flds : List String) (streams : List (String × List String))
    (sp sh : Bool) (seed : Nat) (fns : Option (List (Cut → Cut))) (it : SharIterator)
    (h : finishConstruct flds streams sp sh seed fns = .ok it) :
    it.streams = streams ∧ it.lenState = none ∧
    it.num_shards = (lookupD streams "cuts" []).length ∧
    it.shards = (if sh then
        MT.pyShuffle seed (mkShards streams (lookupD streams "cuts" []).length)
      else mkShards streams (lookupD streams "cuts" []).length) := by
  simp only [finishConstruct] at h
  by_cases hcond : flds.all
      (fun f => (lookupD streams f []).length == (lookupD streams "cuts" []).length) = true
  · rw [if_pos hcond] at h
    injection h with h
    subst h
    exact ⟨rfl, rfl, rfl, rfl⟩
  · rw [if_neg hcond] at h
    simp at h

/-- A successful construction resolves its streams from the inputs, leaves the
length memo unset, takes `num_shards` from the primary list, and builds its
shard descriptors from the resolution — shuffled by the seeded generator
exactly when `shuffle_shards` is set. -/
theorem construct_ok_state (env : Env) (fields : Option (List (String × List String)))
    (in_dir : Option String) (sp sh : Bool) (seed : Nat)
    (fns : Option (List (Cut → Cut))) (it : SharIterator)
    (h : construct env fields in_dir sp sh seed fns = .ok it) :
    it.streams = resolveStreams env fields in_dir ∧
    it.lenState = none ∧
    it.num_shards = (lookupD (resolveStreams env fields in_dir) "cuts" []).length ∧
    it.shards = (if sh then MT.pyShuffle seed (preShuffleShards env fields in_dir)
      else preShuffleShards env fields in_dir) := by
  match fields, in_dir with
  | none, none => simp [construct] at h
  | some _, some _ => simp [construct] at h
  | some fs, none =>
    cases hi : initFromInputs fs with
    | error e => simp [construct, hi] at h
    | ok pair =>
      obtain ⟨flds, streams⟩ := pair
      have h' : finishConstruct flds streams sp sh seed fns = .ok it := by
        simpa [construct, hi] using h
      have hres : resolveStreams env (some fs) none = streams := by
        simp [resolveStreams, hi, Except.toOption]
      have hfin := finishConstruct_ok_state flds streams sp sh seed fns it h'
      rw [hres]
      exact ⟨hfin.1, hfin.2.1, hfin.2.2.1, by rw [preShuffleShards, hres]; exact hfin.2.2.2⟩
  | none, some d =>
    cases hi : initFromDir env d with
    | error e => simp [construct, hi] at h
    | ok pair =>
      obtain ⟨flds, streams⟩ := pair
      have h' : finishConstruct flds streams sp sh seed fns = .ok it := by
        simpa [construct, hi] using h
      have hres : resolveStreams env none (some d) = streams := by
        simp [resolveStreams, hi, Except.toOption]
      have hfin := finishConstruct_ok_state flds streams sp sh seed fns it h'
      rw [hres]
      exact ⟨hfin.1, hfin.2.1, hfin.2.2.1, by rw [preShuffleShards, hres]; exact hfin.2.2.2⟩

/-! ## C3 -/

/-- C3: `Length()` equals the sum over the primary field's resolved shard
locations of their newline counts; it does not depend on the shuffle flag,
seed, or split flag (two instances over the same inputs with different flags
agree); and it is computed once and memoized — after the first call the stored
value is returned as is, whatever the environment then reports (no recount). -/
theorem c3_length_memoized (env : Env) (fields : Option (List (String × List String)))
    (in_dir : Option String) (sp1 sh1 sp2 sh2 : Bool) (seed1 seed2 : Nat)
    (fns1 fns2 : Option (List (Cut → Cut))) (it1 it2 : SharIterator)
    (h1 : construct env fields in_dir sp1 sh1 seed1 fns1 = .ok it1)
    (h2 : construct env fields in_dir sp2 sh2 seed2 fns2 = .ok it2) :
    (callLen env it1).1 =
      ((lookupD (resolveStreams env fields in_dir) "cuts" []).map env.countNewlines).sum ∧
    (callLen env it1).1 = (callLen env it2).1 ∧
    ∀ env2, callLen env2 (callLen env it1).2 = ((callLen env it1).1, (callLen env it1).2) := by
  obtain ⟨hs1, hl1, -, -⟩ := construct_ok_state env fields in_dir sp1 sh1 seed1 fns1 it1 h1
  obtain ⟨hs2, hl2, -, -⟩ := construct_ok_state env fields in_dir sp2 sh2 seed2 fns2 it2 h2
  have e1 : callLen env it1 = (lenValue env it1, { it1 with lenState := some (lenValue env it1) }) := by
    rw [callLen, hl1]
  have e2 : callLen env it2 = (lenValue env it2, { it2 with lenState := some (lenValue env it2) }) := by
    rw [callLen, hl2]
  refine ⟨?_, ?_, ?_⟩
  · rw [e1, lenValue, hs1]
  · rw [e1, e2, lenValue, lenValue, hs1, hs2]
  · intro env2
    rw [e1]
    rfl

/-- C3 witness: two instances over `envA`'s cuts shards, one plain and one
shuffled with seed 1, both report length `3 = 2 + 1`, and a second call with a
poisoned newline counter still returns the memoized value. -/
theorem c3_witness :
    construct envA (some [("cuts", ["c0", "c1"])]) none false false 3 none =
      .ok ⟨[], [("cuts", ["c0", "c1"])], 2, [[("cuts", "c0")], [("cuts", "c1")]],
        [none, none], false, none⟩ ∧
    construct envA (some [("cuts", ["c0", "c1"])]) none true true 1 none =
      .ok ⟨[], [("cuts", ["c0", "c1"])], 2, [[("cuts", "c1")], [("cuts", "c0")]],
        [none, none], true, none⟩ ∧
    (callLen envA ⟨[], [("cuts", ["c0", "c1"])], 2, [[("cuts", "c0")], [("cuts", "c1")]],
        [none, none], false, none⟩).1 =
      ((lookupD (resolveStreams envA (some [("cuts", ["c0", "c1"])]) none) "cuts" []).map
        envA.countNewlines).sum ∧
    (callLen envA ⟨[], [("cuts", ["c0", "c1"])], 2, [[("cuts", "c0")], [("cuts", "c1")]],
        [none, none], false, none⟩).1 =
      (callLen envA ⟨[], [("cuts", ["c0", "c1"])], 2, [[("cuts", "c1")], [("cuts", "c0")]],
        [none, none], true, none⟩).1 ∧
    callLen { envA with countNewlines := fun _ => 99 }
        (callLen envA ⟨[], [("cuts", ["c0", "c1"])], 2, [[("cuts", "c0")], [("cuts", "c1")]],
          [none, none], false, none⟩).2 =
      ((callLen envA ⟨[], [("cuts", ["c0", "c1"])], 2, [[("cuts", "c0")], [("cuts", "c1")]],
          [none, none], false, none⟩).1,
        (callLen envA ⟨[], [("cuts", ["c0", "c1"])], 2, [[("cuts", "c0")], [("cuts", "c1")]],
          [none, none], false, none⟩).2) := by
  have hc := c3_length_memoized envA (some [("cuts", ["c0", "c1"])]) none
    false false true true 3 1 none none
    ⟨[], [("cuts", ["c0", "c1"])], 2, [[("cuts", "c0")], [("cuts", "c1")]],
      [none, none], false, none⟩
    ⟨[], [("cuts", ["c0", "c1"])], 2, [[("cuts", "c1")], [("cuts", "c0")]],
      [none, none], true, none⟩
    rfl rfl
  exact ⟨rfl, rfl, hc.1, hc.2.1, hc.2.2 _⟩

/-! ## C5 -/

/-- C5: with shuffling enabled, the post-shuffle shard order is the seeded
Mersenne-Twister shuffle of the resolution-order descriptor list — a function
of the seed and the input alone, with no shared global random state — so two
independently constructed instances over the same input with the same seed
have identical shard orders, and that order is a permutation of the input. -/
theorem c5_shuffle_deterministic (env : Env) (fields : Option (List (String × List String)))
    (in_dir : Option String) (sp1 sp2 : Bool) (seed : Nat)
    (fns1 fns2 : Option (List (Cut → Cut))) (it1 it2 : SharIterator)
    (h1 : construct env fields in_dir sp1 true seed fns1 = .ok it1)
    (h2 : construct env fields in_dir sp2 true seed fns2 = .ok it2) :
    it1.shards = it2.shards ∧
    it1.shards = MT.pyShuffle seed (preShuffleShards env fields in_dir) ∧
    it1.shards.Perm (preShuffleShards env fields in_dir) := by
  obtain ⟨-, -, -, hsh1⟩ := construct_ok_state env fields in_dir sp1 true seed fns1 it1 h1
  obtain ⟨-, -, -, hsh2⟩ := construct_ok_state env fields in_dir sp2 true seed fns2 it2 h2
  rw [if_pos rfl] at hsh1 hsh2
  refine ⟨hsh1.trans hsh2.symm, hsh1, ?_⟩
  rw [hsh1]
  exact pyShuffle_perm seed _

/-! ## C4 -/

theorem insertLe_length {α : Type} (le : α → α → Bool) (a : α) :
    ∀ l : List α, (insertLe le a l).length = l.length + 1
  | [] => rfl
  | b :: bs => by
    by_cases h : le a b
    · simp [insertLe, h]
    · simp [insertLe, h, insertLe_length le a bs]

theorem insertionSort_length {α : Type} (le : α → α → Bool) :
    ∀ l : List α, (insertionSort le l).length = l.length
  | [] => rfl
  | a :: as => by simp [insertionSort, insertLe_length, insertionSort_length le as]

theorem lookup_map_self {β : Type} (g : String → β) :
    ∀ (l : List String) (f : String), f ∈ l →
      List.lookup f (l.map (fun x => (x, g x))) = some (g f)
  | [], f, h => absurd h (List.not_mem_nil f)
  | x :: xs, f, h => by
    by_cases hfx : f = x
    · subst hfx
      simp [List.lookup]
    · have hm : f ∈ xs := by
        rcases List.mem_cons.mp h with rfl | hm
        · exact absurd rfl hfx
        · exact hm
      have hbeq : (f == x) = false := beq_eq_false_iff_ne.mpr hfx
      simp [List.lookup, hbeq, lookup_map_self g xs f hm]

/-- The success value of the common construction tail, as a single equation. -/
theorem finishConstruct_num (flds : List String) (streams : List (String × List String))
    (sp sh : Bool) (seed : Nat) (fns : Option (List (Cut → Cut))) :
    (finishConstruct flds streams sp sh seed fns).toOption.map SharIterator.num_shards =
      (if flds.all
          (fun f => (lookupD streams f []).length == (lookupD streams "cuts" []).length)
        then some (lookupD streams "cuts" []).length else none) := by
  by_cases hcond : flds.all
      (fun f => (lookupD streams f []).length == (lookupD streams "cuts" []).length) = true
  · simp only [finishConstruct]
    rw [if_pos hcond, if_pos hcond]
    rfl
  · simp only [finishConstruct]
    rw [if_neg hcond, if_neg hcond]
    rfl

/-- Checking every non-primary key's length after filtering out the primary
key is the complement of finding a deviating non-primary key. -/
theorem cuts_filter_all_iff (u : List String) (g : String → Nat) (n : Nat) :
    ((u.filter (fun k => k ≠ "cuts")).all (fun f => g f == n)) = true ↔
      (u.any (fun f => f ≠ "cuts" && g f != n)) = false := by
  constructor
  · intro hall
    rw [← Bool.not_eq_true]
    intro hsome
    obtain ⟨f, hf, hp⟩ := List.any_eq_true.mp hsome
    rw [Bool.and_eq_true] at hp
    have hPf := List.all_eq_true.mp hall f (List.mem_filter.mpr ⟨hf, hp.1⟩)
    have h2 := hp.2
    simp only [bne] at h2
    rw [hPf] at h2
    simp at h2
  · intro hnone
    rw [List.all_eq_true]
    intro f hf
    cases hPb : (g f == n) with
    | true => rfl
    | false =>
      have hT : u.any (fun f => f ≠ "cuts" && g f != n) = true := by
        apply List.any_eq_true.mpr
        refine ⟨f, (List.mem_filter.mp hf).1, ?_⟩
        rw [Bool.and_eq_true]
        refine ⟨(List.mem_filter.mp hf).2, ?_⟩
        simp only [bne]
        rw [hPb]
        rfl
      rw [hT] at hnone
      exact Bool.noConfusion hnone

/-- Pointwise-equal predicates agree on `all`. -/
theorem all_congr_mem {α : Type} (p q : α → Bool) :
    ∀ l : List α, (∀ x ∈ l, p x = q x) → l.all p = l.all q
  | [], _ => rfl
  | x :: xs, h => by
    simp only [List.all_cons]
    rw [h x (List.mem_cons_self _ _),
      all_congr_mem p q xs (fun y hy => h y (List.mem_cons_of_mem _ hy))]

/-- C4: construction fails exactly when a ConfigurationError condition holds —
neither or both construction sources supplied, the primary field missing from
the explicit mapping or the directory scan, or some field's shard-location
count differing from the primary field's — and on success `num_shards` is the
primary field's resolved location count. -/
theorem c4_construct_iff (env : Env) (fields : Option (List (String × List String)))
    (in_dir : Option String) (sp sh : Bool) (seed : Nat) (fns : Option (List (Cut → Cut))) :
    (construct env fields in_dir sp sh seed fns).toOption.map SharIterator.num_shards =
      (if configErrorB env fields in_dir then none
       else some (lookupD (resolveStreams env fields in_dir) "cuts" []).length) := by
  match fields, in_dir with
  | none, none => rfl
  | some _, some _ => rfl
  | some fs, none =>
    by_cases hcuts : (fs.map Prod.fst).contains "cuts" = true
    · have hi : initFromInputs fs =
          .ok ((uniqueKeys (fs.map Prod.fst)).filter (fun k => k ≠ "cuts"), fs) := by
        simp only [initFromInputs]
        rw [if_pos hcuts]
      have hcon : construct env (some fs) none sp sh seed fns =
          finishConstruct ((uniqueKeys (fs.map Prod.fst)).filter (fun k => k ≠ "cuts")) fs
            sp sh seed fns := by
        simp [construct, hi]
      have hres : resolveStreams env (some fs) none = fs := by
        simp [resolveStreams, hi, Except.toOption]
      rw [hcon, finishConstruct_num, hres]
      by_cases hcond : ((uniqueKeys (fs.map Prod.fst)).filter (fun k => k ≠ "cuts")).all
          (fun f => (lookupD fs f []).length == (lookupD fs "cuts" []).length) = true
      · have hany := (cuts_filter_all_iff (uniqueKeys (fs.map Prod.fst))
          (fun f => (lookupD fs f []).length) (lookupD fs "cuts" []).length).mp hcond
        have herr : configErrorB env (some fs) none = false := by
          simp only [configErrorB]
          rw [hcuts, hany]
          rfl
        rw [if_pos hcond, herr]
        simp
      · have hanyT : ((uniqueKeys (fs.map Prod.fst)).any (fun f =>
            f ≠ "cuts" && (lookupD fs f []).length != (lookupD fs "cuts" []).length)) = true := by
          cases hb : ((uniqueKeys (fs.map Prod.fst)).any (fun f =>
              f ≠ "cuts" && (lookupD fs f []).length != (lookupD fs "cuts" []).length)) with
          | false => exact absurd ((cuts_filter_all_iff (uniqueKeys (fs.map Prod.fst))
              (fun f => (lookupD fs f []).length) (lookupD fs "cuts" []).length).mpr hb) hcond
          | true => rfl
        have herr : configErrorB env (some fs) none = true := by
          simp only [configErrorB]
          rw [hcuts, hanyT]
          rfl
        rw [if_neg hcond, herr]
        simp
    · have hc2 : ((fs.map Prod.fst).contains "cuts") = false := by
        rw [← Bool.not_eq_true]
        exact hcuts
      have hcon : construct env (some fs) none sp sh seed fns = .error .missingPrimary := by
        simp only [construct, initFromInputs]
        rw [if_neg hcuts]
      have herr : configErrorB env (some fs) none = true := by
        simp only [configErrorB]
        rw [hc2]
        rfl
      rw [hcon, herr]
      rfl
  | none, some d =>
    by_cases hcuts : (dirFields env d).contains "cuts" = true
    · have hi : initFromDir env d =
          .ok ((dirFields env d).filter (fun k => k ≠ "cuts"),
            ("cuts", insertionSort strLe (dirCutsPaths env d)) ::
              ((dirFields env d).filter (fun k => k ≠ "cuts")).map (fun f =>
                (f, insertionSort strLe (dirFieldPaths env d f)))) := by
        simp only [initFromDir]
        rw [if_pos hcuts]
      have hcon : construct env none (some d) sp sh seed fns =
          finishConstruct ((dirFields env d).filter (fun k => k ≠ "cuts"))
            (("cuts", insertionSort strLe (dirCutsPaths env d)) ::
              ((dirFields env d).filter (fun k => k ≠ "cuts")).map (fun f =>
                (f, insertionSort strLe (dirFieldPaths env d f)))) sp sh seed fns := by
        simp [construct, hi]
      have hres : resolveStreams env none (some d) =
          ("cuts", insertionSort strLe (dirCutsPaths env d)) ::
            ((dirFields env d).filter (fun k => k ≠ "cuts")).map (fun f =>
              (f, insertionSort strLe (dirFieldPaths env d f))) := by
        simp [resolveStreams, hi, Except.toOption]
      rw [hcon, finishConstruct_num, hres]
      have hcutslookup : lookupD (("cuts", insertionSort strLe (dirCutsPaths env d)) ::
            ((dirFields env d).filter (fun k => k ≠ "cuts")).map (fun f =>
              (f, insertionSort strLe (dirFieldPaths env d f)))) "cuts" [] =
          insertionSort strLe (dirCutsPaths env d) := by
        simp [lookupD, List.lookup]
      have hPQ : ∀ f ∈ (dirFields env d).filter (fun k => k ≠ "cuts"),
          ((lookupD (("cuts", insertionSort strLe (dirCutsPaths env d)) ::
              ((dirFields env d).filter (fun k => k ≠ "cuts")).map (fun g =>
                (g, insertionSort strLe (dirFieldPaths env d g)))) f []).length ==
            (lookupD (("cuts", insertionSort strLe (dirCutsPaths env d)) ::
              ((dirFields env d).filter (fun k => k ≠ "cuts")).map (fun g =>
                (g, insertionSort strLe (dirFieldPaths env d g)))) "cuts" []).length) =
          ((dirFieldPaths env d f).length == (dirCutsPaths env d).length) := by
        intro f hf
        have hfc : f ≠ "cuts" := by simpa using (List.mem_filter.mp hf).2
        have hbeq : (f == "cuts") = false := beq_eq_false_iff_ne.mpr hfc
        have hl : lookupD (("cuts", insertionSort strLe (dirCutsPaths env d)) ::
            ((dirFields env d).filter (fun k => k ≠ "cuts")).map (fun g =>
              (g, insertionSort strLe (dirFieldPaths env d g)))) f [] =
            insertionSort strLe (dirFieldPaths env d f) := by
          rw [lookupD, List.lookup, hbeq]
          rw [lookup_map_self (fun g => insertionSort strLe (dirFieldPaths env d g)) _ f hf]
          rfl
        rw [hl, hcutslookup, insertionSort_length, insertionSort_length]
      have hcondeq := all_congr_mem _ _ ((dirFields env d).filter (fun k => k ≠ "cuts")) hPQ
      by_cases hcond : (((dirFields env d).filter (fun k => k ≠ "cuts")).all
          (fun f => (lookupD (("cuts", insertionSort strLe (dirCutsPaths env d)) ::
              ((dirFields env d).filter (fun k => k ≠ "cuts")).map (fun g =>
                (g, insertionSort strLe (dirFieldPaths env d g)))) f []).length ==
            (lookupD (("cuts", insertionSort strLe (dirCutsPaths env d)) ::
              ((dirFields env d).filter (fun k => k ≠ "cuts")).map (fun g =>
                (g, insertionSort strLe (dirFieldPaths env d g)))) "cuts" []).length)) = true
      · have hq : ((dirFields env d).filter (fun k => k ≠ "cuts")).all
            (fun f => (dirFieldPaths env d f).length == (dirCutsPaths env d).length) = true := by
          rw [← hcondeq]
          exact hcond
        have hany := (cuts_filter_all_iff (dirFields env d)
          (fun f => (dirFieldPaths env d f).length) (dirCutsPaths env d).length).mp hq
        have herr : configErrorB env none (some d) = false := by
          simp only [configErrorB]
          rw [hcuts, hany]
          rfl
        rw [if_pos hcond, herr]
        simp
      · have hanyT : ((dirFields env d).any (fun f => f ≠ "cuts" &&
            (dirFieldPaths env d f).length != (dirCutsPaths env d).length)) = true := by
          cases hb : ((dirFields env d).any (fun f => f ≠ "cuts" &&
              (dirFieldPaths env d f).length != (dirCutsPaths env d).length)) with
          | false =>
            have hq := (cuts_filter_all_iff (dirFields env d)
              (fun f => (dirFieldPaths env d f).length) (dirCutsPaths env d).length).mpr hb
            rw [← hcondeq] at hq
            exact absurd hq hcond
          | true => rfl
        have herr : configErrorB env none (some d) = true := by
          simp only [configErrorB]
          rw [hcuts, hanyT]
          rfl
        rw [if_neg hcond, herr]
        simp
    · have hc2 : ((dirFields env d).contains "cuts") = false := by
        rw [← Bool.not_eq_true]
        exact hcuts
      have hcon : construct env none (some d) sp sh seed fns = .error .missingPrimary := by
        simp only [construct, initFromDir]
        rw [if_neg hcuts]
      have herr : configErrorB env none (some d) = true := by
        simp only [configErrorB]
        rw [hc2]
        rfl
      rw [hcon, herr]
      rfl

/-- C5 witness: two independent constructions over `envA`'s two cuts shards,
shuffling with seed 1, agree on the (swapped) shard order, which is the seeded
shuffle of — and a permutation of — the resolution-order list. -/
theorem c5_witness :
    construct envA (some [("cuts", ["c0", "c1"])]) none false true 1 none =
      .ok ⟨[], [("cuts", ["c0", "c1"])], 2, [[("cuts", "c1")], [("cuts", "c0")]],
        [none, none], false, none⟩ ∧
    ([[("cuts", "c1")], [("cuts", "c0")]] :) =
      MT.pyShuffle 1 (preShuffleShards envA (some [("cuts", ["c0", "c1"])]) none) ∧
    ([[("cuts", "c1")], [("cuts", "c0")]] :).Perm
      (preShuffleShards envA (some [("cuts", ["c0", "c1"])]) none) := by
  have hc := c5_shuffle_deterministic envA (some [("cuts", ["c0", "c1"])]) none
    false false 1 none none
    ⟨[], [("cuts", ["c0", "c1"])], 2, [[("cuts", "c1")], [("cuts", "c0")]],
      [none, none], false, none⟩
    ⟨[], [("cuts", ["c0", "c1"])], 2, [[("cuts", "c1")], [("cuts", "c0")]],
      [none, none], false, none⟩
    rfl rfl
  exact ⟨rfl, hc.2.1, hc.2.2⟩

/-! ## C8: directory-mode grouping and sorting -/

/-- `charListLe` decides the negated, flipped lexicographic strict order on
character lists. -/
theorem charListLe_eq_true_iff : ∀ l1 l2 : List Char,
    charListLe l1 l2 = true ↔ ¬ l2 < l1
  | [], l2 => by
    constructor
    · intro _ h
      cases h
    · intro _
      rfl
  | a :: as, [] => by
    constructor
    · intro h
      exact absurd h (by simp [charListLe])
    · intro h
      exact absurd List.Lex.nil h
  | a :: as, b :: bs => by
    rw [charListLe]
    by_cases hab : a = b
    · subst hab
      rw [if_pos rfl, charListLe_eq_true_iff as bs]
      constructor
      · intro h hlt
        cases hlt with
        | cons h1 => exact h h1
        | rel h1 => exact absurd h1 (lt_irrefl a)
      · intro h hlt
        exact h (List.Lex.cons hlt)
    · rw [if_neg hab]
      rcases lt_trichotomy a b with hlt | heq | hgt
      · constructor
        · intro _ hl
          cases hl with
          | cons h1 => exact hab rfl
          | rel h1 => exact absurd hlt (asymm h1)
        · intro _
          exact decide_eq_true hlt
      · exact absurd heq hab
      · constructor
        · intro h
          exact absurd (of_decide_eq_true h) (asymm hgt)
        · intro h
          exact absurd (List.Lex.rel hgt) h

/-- The comparator driving the embedding's `sorted` agrees with the ambient
string order. -/
theorem strLe_iff_le (a b : String) : strLe a b = true ↔ a ≤ b := by
  rw [String.le_iff_toList_le]
  show charListLe a.data b.data = true ↔ _
  rw [charListLe_eq_true_iff]
  exact not_lt

/-- Totality of the comparator. -/
theorem strLe_of_not (a b : String) (h : strLe a b = false) : strLe b a = true := by
  rw [strLe_iff_le]
  have hn : ¬ a ≤ b := fun hle => by
    rw [(strLe_iff_le a b).mpr hle] at h
    exact Bool.noConfusion h
  exact le_of_not_le hn

/-- Inserting into a list permutes consing onto it. -/
theorem insertLe_perm {α : Type} (le : α → α → Bool) (a : α) :
    ∀ l : List α, (insertLe le a l).Perm (a :: l)
  | [] => List.Perm.refl _
  | b :: bs => by
    rw [insertLe]
    by_cases h : le a b = true
    · rw [if_pos h]
    · rw [if_neg h]
      exact ((insertLe_perm le a bs).cons b).trans (List.Perm.swap a b bs)

/-- The sort output is a permutation of its input. -/
theorem insertionSort_perm {α : Type} (le : α → α → Bool) :
    ∀ l : List α, (insertionSort le l).Perm l
  | [] => List.Perm.refl _
  | a :: as => by
    rw [insertionSort]
    exact (insertLe_perm le a _).trans ((insertionSort_perm le as).cons a)

/-- Inserting into an ascending list of strings keeps it ascending. -/
theorem insertLe_sorted (a : String) : ∀ l : List String,
    List.Sorted (fun x y : String => x ≤ y) l →
    List.Sorted (fun x y : String => x ≤ y) (insertLe strLe a l)
  | [], _ => List.sorted_singleton a
  | b :: bs, h => by
    rw [List.sorted_cons] at h
    rw [insertLe]
    by_cases hle : strLe a b = true
    · rw [if_pos hle]
      rw [List.sorted_cons]
      refine ⟨?_, List.sorted_cons.mpr h⟩
      intro x hx
      rcases List.mem_cons.mp hx with rfl | hx2
      · exact (strLe_iff_le a x).mp hle
      · exact le_trans ((strLe_iff_le a b).mp hle) (h.1 x hx2)
    · rw [if_neg hle]
      have hle' : strLe a b = false := by
        cases hob : strLe a b with
        | false => rfl
        | true => exact absurd hob hle
      have hba : b ≤ a := (strLe_iff_le b a).mp (strLe_of_not a b hle')
      rw [List.sorted_cons]
      refine ⟨?_, insertLe_sorted a bs h.2⟩
      intro x hx
      rcases List.mem_cons.mp ((insertLe_perm strLe a bs).mem_iff.mp hx) with rfl | hx2
      · exact hba
      · exact h.1 x hx2

/-- The embedded `sorted` produces ascending string lists. -/
theorem insertionSort_sorted : ∀ l : List String,
    List.Sorted (fun x y : String => x ≤ y) (insertionSort strLe l)
  | [] => List.sorted_nil
  | a :: as => by
    rw [insertionSort]
    exact insertLe_sorted a _ (insertionSort_sorted as)

/-- Membership in the deduplication pass: kept iff present and not yet seen. -/
theorem uniqueKeysGo_mem (x : String) : ∀ (seen l : List String),
    x ∈ uniqueKeysGo seen l ↔ x ∈ l ∧ ¬ x ∈ seen
  | seen, [] => by simp [uniqueKeysGo]
  | seen, k :: ks => by
    rw [uniqueKeysGo]
    by_cases h : List.contains seen k = true
    · rw [if_pos h]
      have hk : k ∈ seen := by simpa using h
      rw [uniqueKeysGo_mem x seen ks]
      simp only [List.mem_cons]
      constructor
      · rintro ⟨hx, hns⟩
        exact ⟨Or.inr hx, hns⟩
      · rintro ⟨hor, hns⟩
        rcases hor with rfl | hx
        · exact absurd hk hns
        · exact ⟨hx, hns⟩
    · rw [if_neg h]
      simp only [List.mem_cons, uniqueKeysGo_mem x (k :: seen) ks]
      have hk : ¬ k ∈ seen := by simpa using h
      constructor
      · rintro (rfl | ⟨hks, hns⟩)
        · exact ⟨Or.inl rfl, hk⟩
        · exact ⟨Or.inr hks, fun hs => hns (Or.inr hs)⟩
      · rintro ⟨rfl | hks, hns⟩
        · exact Or.inl rfl
        · by_cases hxk : x = k
          · exact Or.inl hxk
          · exact Or.inr ⟨hks, fun hor => hor.elim hxk hns⟩

/-- The deduplication pass emits no key twice. -/
theorem uniqueKeysGo_nodup : ∀ (seen l : List String), (uniqueKeysGo seen l).Nodup
  | _, [] => List.nodup_nil
  | seen, k :: ks => by
    rw [uniqueKeysGo]
    by_cases h : List.contains seen k = true
    · rw [if_pos h]
      exact uniqueKeysGo_nodup seen ks
    · rw [if_neg h]
      refine List.nodup_cons.mpr ⟨?_, uniqueKeysGo_nodup (k :: seen) ks⟩
      intro hkmem
      exact ((uniqueKeysGo_mem k (k :: seen) ks).mp hkmem).2 (List.mem_cons_self k seen)

/-- A duplicate-free list whose members are exactly one value is that
singleton. -/
theorem nodup_eq_singleton {l : List String} {r : String} (hnd : l.Nodup)
    (hmem : ∀ x, x ∈ l ↔ x = r) : l = [r] := by
  cases l with
  | nil => exact absurd ((hmem r).mpr rfl) (List.not_mem_nil r)
  | cons a t =>
    have ha : a = r := (hmem a).mp (List.mem_cons_self a t)
    subst ha
    have ht : t = [] := by
      rw [List.eq_nil_iff_forall_not_mem]
      intro x hx
      have hxa : x = a := (hmem x).mp (List.mem_cons_of_mem a hx)
      subst hxa
      exact (List.nodup_cons.mp hnd).1 hx
    rw [ht]

/-- Every stream list a successful directory scan resolves is an
`insertionSort` image, hence sorted ascending. -/
theorem initFromDir_streams_sorted (env : Env) (d : String) (flds : List String)
    (streams : List (String × List String))
    (h : initFromDir env d = .ok (flds, streams)) :
    ∀ f ps, (f, ps) ∈ streams → List.Sorted (fun x y : String => x ≤ y) ps := by
  intro f ps hmem
  simp only [initFromDir] at h
  by_cases hc : (dirFields env d).contains "cuts" = true
  · rw [if_pos hc] at h
    injection h with h
    have hs : streams = ("cuts", insertionSort strLe (dirCutsPaths env d)) ::
        ((dirFields env d).filter (fun k => k ≠ "cuts")).map
          (fun g => (g, insertionSort strLe (dirFieldPaths env d g))) :=
      (congrArg Prod.snd h).symm
    rw [hs] at hmem
    rcases List.mem_cons.mp hmem with heq | hmem2
    · injection heq with h1 h2
      rw [h2]
      exact insertionSort_sorted _
    · obtain ⟨g, hg, hgeq⟩ := List.mem_map.mp hmem2
      injection hgeq with h1 h2
      rw [← h2]
      exact insertionSort_sorted _
  · rw [if_neg hc] at h
    exact absurd h (by simp)

/-- C8: in directory mode the scan groups files into fields by the leading name
component before the first extension separator and sorts each field's entries
lexicographically: every stream list of any successful directory-mode
construction is sorted ascending, and for a directory holding exactly
`cuts.000000.jsonl`, `cuts.000001.jsonl`, `recording.000000.tar`,
`recording.000001.tar` — listed by the OS in any order — the resolver discovers
the non-primary field set `{recording}`, sets `num_shards = 2`, and resolves the
two ascending location lists. -/
theorem c8_directory_layout (env : Env) (sp sh : Bool) (seed : Nat)
    (fns : Option (List (Cut → Cut))) :
    (∀ d it, construct env none (some d) sp sh seed fns = .ok it →
        ∀ f ps, (f, ps) ∈ it.streams → List.Sorted (fun x y : String => x ≤ y) ps) ∧
    ((env.dirEntries "d").Perm c8Files →
      (construct env none (some "d") sp sh seed fns).toOption.map
          (fun it => (it.fields, it.num_shards, it.streams)) =
        some (["recording"], 2,
          [("cuts", ["d/cuts.000000.jsonl", "d/cuts.000001.jsonl"]),
           ("recording", ["d/recording.000000.tar", "d/recording.000001.tar"])])) := by
  constructor
  · intro d it h f ps hmem
    cases hi : initFromDir env d with
    | error e => simp [construct, hi] at h
    | ok pair =>
      obtain ⟨flds, streams⟩ := pair
      have h' : finishConstruct flds streams sp sh seed fns = .ok it := by
        simpa [construct, hi] using h
      have hstr : it.streams = streams :=
        (finishConstruct_ok_state flds streams sp sh seed fns it h').1
      rw [hstr] at hmem
      exact initFromDir_streams_sorted env d flds streams hi f ps hmem
  · intro hperm
    have hpaths : (dirAllPaths env "d").Perm (c8Files.map (fun n => "d" ++ "/" ++ n)) :=
      hperm.map (fun n => "d" ++ "/" ++ n)
    have hcutsfilter : ((c8Files.map (fun n => "d" ++ "/" ++ n)).filter
        (fun p => nameFirstSeg p == "cuts" && extension_contains ".jsonl" p)) =
        ["d/cuts.000000.jsonl", "d/cuts.000001.jsonl"] := by decide
    have hcutsperm : (dirCutsPaths env "d").Perm
        ["d/cuts.000000.jsonl", "d/cuts.000001.jsonl"] := by
      have h1 := hpaths.filter
        (fun p => nameFirstSeg p == "cuts" && extension_contains ".jsonl" p)
      rw [hcutsfilter] at h1
      exact h1
    have hrecfilter : ((c8Files.map (fun n => "d" ++ "/" ++ n)).filter
        (fun p => nameFirstSeg p == "recording")) =
        ["d/recording.000000.tar", "d/recording.000001.tar"] := by decide
    have hrecperm : (dirFieldPaths env "d" "recording").Perm
        ["d/recording.000000.tar", "d/recording.000001.tar"] := by
      have h1 := hpaths.filter (fun p => nameFirstSeg p == "recording")
      rw [hrecfilter] at h1
      exact h1
    have hcutseq : insertionSort strLe (dirCutsPaths env "d") =
        ["d/cuts.000000.jsonl", "d/cuts.000001.jsonl"] := by
      have hs : List.Sorted (fun x y : String => strLe x y = true)
          ["d/cuts.000000.jsonl", "d/cuts.000001.jsonl"] := by decide
      exact List.eq_of_perm_of_sorted ((insertionSort_perm strLe _).trans hcutsperm)
        (insertionSort_sorted _) (hs.imp (fun hx => (strLe_iff_le _ _).mp hx))
    have hreceq : insertionSort strLe (dirFieldPaths env "d" "recording") =
        ["d/recording.000000.tar", "d/recording.000001.tar"] := by
      have hs : List.Sorted (fun x y : String => strLe x y = true)
          ["d/recording.000000.tar", "d/recording.000001.tar"] := by decide
      exact List.eq_of_perm_of_sorted ((insertionSort_perm strLe _).trans hrecperm)
        (insertionSort_sorted _) (hs.imp (fun hx => (strLe_iff_le _ _).mp hx))
    have hstems : ((dirAllPaths env "d").map stemFirstSeg).Perm
        ["cuts", "cuts", "recording", "recording"] := by
      have h1 := hpaths.map stemFirstSeg
      have h2 : (c8Files.map (fun n => "d" ++ "/" ++ n)).map stemFirstSeg =
          ["cuts", "cuts", "recording", "recording"] := by decide
      rw [h2] at h1
      exact h1
    have hfieldsmem : ∀ x, x ∈ dirFields env "d" ↔ (x = "cuts" ∨ x = "recording") := by
      intro x
      show x ∈ uniqueKeysGo [] ((dirAllPaths env "d").map stemFirstSeg) ↔ _
      rw [uniqueKeysGo_mem, hstems.mem_iff]
      simp
    have hflds : (dirFields env "d").filter (fun k => k ≠ "cuts") = ["recording"] := by
      apply nodup_eq_singleton
      · exact List.Nodup.filter _
          (uniqueKeysGo_nodup [] ((dirAllPaths env "d").map stemFirstSeg))
      · intro x
        rw [List.mem_filter]
        constructor
        · rintro ⟨hx, hne⟩
          rcases (hfieldsmem x).mp hx with rfl | rfl
          · simp at hne
          · rfl
        · rintro rfl
          exact ⟨(hfieldsmem _).mpr (Or.inr rfl), by simp⟩
    have hc : (dirFields env "d").contains "cuts" = true := by
      have hm : "cuts" ∈ dirFields env "d" := (hfieldsmem "cuts").mpr (Or.inl rfl)
      simpa using hm
    have hinit : initFromDir env "d" = .ok (["recording"],
        [("cuts", ["d/cuts.000000.jsonl", "d/cuts.000001.jsonl"]),
         ("recording", ["d/recording.000000.tar", "d/recording.000001.tar"])]) := by
      simp only [initFromDir]
      rw [if_pos hc, hflds]
      simp only [List.map_cons, List.map_nil]
      rw [hcutseq, hreceq]
    have hcon : construct env none (some "d") sp sh seed fns =
        finishConstruct ["recording"]
          [("cuts", ["d/cuts.000000.jsonl", "d/cuts.000001.jsonl"]),
           ("recording", ["d/recording.000000.tar", "d/recording.000001.tar"])]
          sp sh seed fns := by
      simp [construct, hinit]
    rw [hcon]
    rfl

/-- C8 witness: the scrambled concrete directory listing of `envA` resolves to
fields `{recording}`, two shards, and ascending location lists. -/
theorem c8_witness :
    (envA.dirEntries "d").Perm c8Files ∧
    (construct envA none (some "d") false false 0 none).toOption.map
        (fun it => (it.fields, it.num_shards, it.streams)) =
      some (["recording"], 2,
        [("cuts", ["d/cuts.000000.jsonl", "d/cuts.000001.jsonl"]),
         ("recording", ["d/recording.000000.tar", "d/recording.000001.tar"])]) :=
  ⟨by decide, (c8_directory_layout envA false false 0 none).2 (by decide)⟩

end LhotseShar
